import Mathlib

/-!
Verification of the SmartVerses scripture-matching core against its
specification.

Modelling conventions (shallow embedding of the TypeScript sources):

* JavaScript strings are modelled as `String` / `List Char`; all string
  primitives used by the code (trim, toLowerCase, split, regex word-boundary
  matching) are reimplemented here as executable char-list functions so that
  concrete inputs evaluate inside the kernel.  Only the ASCII fragment is
  modelled, which covers every string constant in the sources.
* JavaScript numbers are modelled as `ℚ` (exact rationals) for scores and as
  `Nat` for counts and limits.  Floating-point rounding is not modelled; the
  one genuinely float-dependent operation (`Math.sqrt` inside
  `cosineSimilarity`) is abstracted as an oracle parameter, since every claim
  under study is invariant under the exact cosine values.
* Module-level mutable caches become explicit state passed to and returned
  from the modelled functions.  `async` functions that can throw are modelled
  with `Except`.  External libraries (FlexSearch, the transformers.js
  embedder, the Tauri filesystem) are modelled as oracle parameters: the code
  under `src/` is embedded, its collaborators are quantified over.
-/

/-- ASCII whitespace test, modelling the JavaScript `\s` character class
(restricted to the ASCII range actually produced by the sources). -/
def isWsChar (c : Char) : Bool :=
  c == ' ' || c == '\t' || c == '\n' || c == '\r'

/-- ASCII word-character test, modelling the JavaScript `\w` class
`[A-Za-z0-9_]` used by the `\b` word-boundary assertion. -/
def isWordChar (c : Char) : Bool :=
  (('a' ≤ c && c ≤ 'z') || ('A' ≤ c && c ≤ 'Z') || ('0' ≤ c && c ≤ '9') || c == '_')

/-- ASCII lowercasing of one character, modelling `String.prototype.toLowerCase`
on the ASCII fragment. -/
def lowerChar (c : Char) : Char :=
  if 'A' ≤ c && c ≤ 'Z' then Char.ofNat (c.toNat + 32) else c

/-- `toLowerCase` on a char list. -/
def toLowerCh (cs : List Char) : List Char := cs.map lowerChar

/-- `String.prototype.trim` on a char list: drops leading and trailing
whitespace. -/
def trimCh (cs : List Char) : List Char :=
  ((cs.dropWhile isWsChar).reverse.dropWhile isWsChar).reverse

/-- Helper for `splitWsCh`: accumulates the current (reversed) word. -/
def splitWsAux (cur : List Char) : List Char → List (List Char)
  | [] => if cur.isEmpty then [] else [cur.reverse]
  | c :: cs =>
    if isWsChar c then
      (if cur.isEmpty then splitWsAux [] cs else cur.reverse :: splitWsAux [] cs)
    else
      splitWsAux (c :: cur) cs

/-- Split a char list into its maximal non-whitespace runs, modelling
`str.split(/\s+/).filter(Boolean)` (and `str.split(/\s+/)` on trimmed
input, where no empty fragments arise). -/
def splitWsCh (cs : List Char) : List (List Char) := splitWsAux [] cs

/-! ### Word-boundary regular matching

`bibleLibraryService.ts` builds, for each normalized alias, the regular
expression ``new RegExp(`\\b${spaced}\\b`, "i")`` where `spaced` is the
regex-escaped alias with every whitespace run replaced by `\s+`
(`aliasToPattern`).  Because the alias is regex-escaped, the pattern is a
literal word sequence: the words of the alias separated by `\s+`, anchored by
word boundaries on both sides.  `matchWordsAt` matches that word sequence at
the head of the text; `scanAt` tries every start position, tracking the
preceding character for the `\b` assertion.  The `i` flag is immaterial in
the model because both the alias and the text have been lowercased before
matching.  `buildAliasIndex` never registers an empty alias, so the
degenerate pattern `/\b\b/` does not arise. -/

/-- Match the word sequence `ws` (words separated by `\s+`) at the head of
`text`; returns the remaining text on success. -/
def matchWordsAt : List (List Char) → List Char → Option (List Char)
  | [], rest => some rest
  | w :: ws, rest =>
    if w.isPrefixOf rest then
      let r := rest.drop w.length
      match ws with
      | [] => some r
      | _ :: _ =>
        let r2 := r.dropWhile isWsChar
        if r2.length < r.length then matchWordsAt ws r2 else none
    else none

/-- Wordness of an optional character; the ends of the string count as
non-word positions for `\b`. -/
def isWordOpt : Option Char → Bool
  | none => false
  | some c => isWordChar c

/-- The `\b` assertion between an optional previous and next character. -/
def boundaryOk (a b : Option Char) : Bool := isWordOpt a != isWordOpt b

/-- First character of a word sequence. -/
def firstCharOfWords : List (List Char) → Option Char
  | [] => none
  | w :: _ => w.head?

/-- Last character of a word sequence. -/
def lastCharOfWords (ws : List (List Char)) : Option Char :=
  match ws.getLast? with
  | none => none
  | some w => w.getLast?

/-- Try to match `\b w₁ \s+ … \s+ wₙ \b` exactly at the head of `text`,
where `prev` is the character immediately before that position. -/
def testAt (ws : List (List Char)) (prev : Option Char) (text : List Char) : Bool :=
  boundaryOk prev (firstCharOfWords ws) &&
    match matchWordsAt ws text with
    | some rest => boundaryOk (lastCharOfWords ws) rest.head?
    | none => false

/-- Scan every start position of `text` for a `\b…\b` match of `ws`. -/
def scanAt (ws : List (List Char)) (prev : Option Char) (text : List Char) : Bool :=
  testAt ws prev text ||
    match text with
    | [] => false
    | c :: rest => scanAt ws (some c) rest

/-- `aliasToPattern(alias).test(text)`: word-boundary match of the (already
normalized) alias against the (already normalized) text. -/
def testPattern (aliasStr : String) (text : String) : Bool :=
  scanAt (splitWsCh aliasStr.data) none text.data

/-! ### bibleLibraryService.ts -/

/-- `normalizeAlias` from `bibleLibraryService.ts`: `value.trim().toLowerCase()`. -/
def normalizeAlias (value : String) : String :=
  ⟨toLowerCh (trimCh value.data)⟩

/-- One entry of the alias list built by `buildAliasIndex`: the normalized
alias text and the owning translation id.  The compiled `RegExp` field of the
source entry is recomputed on demand by `testPattern`. -/
structure AliasEntry where
  aliasText : String
  id : String
deriving DecidableEq, Repr

/-- A translation summary as consumed by `buildAliasIndex` (the fields of
`BibleTranslationSummary` that the alias index reads). -/
structure TranslationSummary where
  id : String
  shortName : String
  fullName : String
  language : String
  source : String
  aliases : List String
  isBuiltin : Bool
deriving Repr

/-- The part of `BibleLibraryState` that alias resolution reads: the
`aliasIndex` map (insertion-ordered association list) and the
length-sorted `aliasEntries` list. -/
structure AliasState where
  aliasIndex : List (String × String)
  aliasEntries : List AliasEntry
deriving Repr

/-- `addAlias` inside `buildAliasIndex`: skip empty or already-registered
normalized aliases, otherwise append to both the map and the entry list. -/
def addAlias (st : AliasState) (aliasStr : String) (id : String) : AliasState :=
  let normalized := normalizeAlias aliasStr
  if normalized = "" then st
  else if (st.aliasIndex.find? (fun p => p.1 = normalized)).isSome then st
  else
    { aliasIndex := st.aliasIndex ++ [(normalized, id)]
      aliasEntries := st.aliasEntries ++ [{ aliasText := normalized, id := id }] }

/-- Register the aliases of one summary: id, shortName, fullName, then the
explicit alias list. -/
def addSummaryAliases (st : AliasState) (meta : TranslationSummary) : AliasState :=
  let st := addAlias st meta.id meta.id
  let st := addAlias st meta.shortName meta.id
  let st := addAlias st meta.fullName meta.id
  meta.aliases.foldl (fun st a => addAlias st a meta.id) st

/-- Stable insertion of an entry into a list sorted by non-increasing alias
length, modelling the stable `Array.prototype.sort` with comparator
`(a, b) => b.aliasText.length - a.aliasText.length`. -/
def insertByLenDesc (e : AliasEntry) : List AliasEntry → List AliasEntry
  | [] => [e]
  | x :: xs =>
    if x.aliasText.length ≤ e.aliasText.length then e :: x :: xs
    else x :: insertByLenDesc e xs

/-- Stable sort by non-increasing alias length. -/
def sortByLenDesc (l : List AliasEntry) : List AliasEntry :=
  l.foldr insertByLenDesc []

/-- `buildAliasIndex` from `bibleLibraryService.ts`. -/
def buildAliasIndex (summaries : List TranslationSummary) : AliasState :=
  let st := summaries.foldl addSummaryAliases { aliasIndex := [], aliasEntries := [] }
  { st with aliasEntries := sortByLenDesc st.aliasEntries }

/-- `resolveTranslationToken`: exact lookup of the normalized token in the
alias map. -/
def resolveTranslationToken (st : AliasState) (token : String) : Option String :=
  let normalized := normalizeAlias token
  if normalized = "" then none
  else (st.aliasIndex.find? (fun p => p.1 = normalized)).map (fun p => p.2)

/-- The contextual-cue test of `findTranslationCue`:
`/\b(translation|version)\b/i.test(normalized) || /\b(in|from)\s+the\b/i.test(normalized)`. -/
def hasContextCue (normalized : String) : Bool :=
  testPattern "translation" normalized || testPattern "version" normalized ||
    testPattern "in the" normalized || testPattern "from the" normalized

/-- Eligibility of one alias entry inside the `findTranslationCue` loop:
`entry.pattern.test(normalized)` combined with
`hasContext || entry.alias.length <= 4`. -/
def cueEligible (hasContext : Bool) (normalized : String) (e : AliasEntry) : Bool :=
  testPattern e.aliasText normalized && (hasContext || decide (e.aliasText.length ≤ 4))

/-- `findTranslationCue` from `bibleLibraryService.ts`: scan the
length-sorted alias entries; an entry whose pattern matches is returned when
a contextual cue is present or its alias has length at most 4 (`<= 4` in the
source); otherwise the scan continues. -/
def findTranslationCue (st : AliasState) (text : String) : Option String :=
  let normalized := normalizeAlias text
  if normalized = "" then none
  else
    let hasContext := hasContextCue normalized
    st.aliasEntries.findSome? (fun e =>
      if cueEligible hasContext normalized e then some e.id else none)

/-- The builtin KJV metadata (`BUILTIN_KJV_METADATA`) as a summary. -/
def kjvSummary : TranslationSummary :=
  { id := "kjv", shortName := "KJV", fullName := "King James Version",
    language := "en", source := "Public Domain",
    aliases := ["KJV", "King James", "King James Version"], isBuiltin := true }

/-! ### bibleService.ts -/

/-- The `OSIS_TO_BOOK_NAME` table from `bibleService.ts`. -/
def OSIS_TO_BOOK_NAME : List (String × String) :=
  [("Gen", "Genesis"), ("Exod", "Exodus"), ("Lev", "Leviticus"),
   ("Num", "Numbers"), ("Deut", "Deuteronomy"), ("Josh", "Joshua"),
   ("Judg", "Judges"), ("Ruth", "Ruth"), ("1Sam", "1 Samuel"),
   ("2Sam", "2 Samuel"), ("1Kgs", "1 Kings"), ("2Kgs", "2 Kings"),
   ("1Chr", "1 Chronicles"), ("2Chr", "2 Chronicles"), ("Ezra", "Ezra"),
   ("Neh", "Nehemiah"), ("Esth", "Esther"), ("Job", "Job"),
   ("Ps", "Psalms"), ("Prov", "Proverbs"), ("Eccl", "Ecclesiastes"),
   ("Song", "Song of Solomon"), ("Isa", "Isaiah"), ("Jer", "Jeremiah"),
   ("Lam", "Lamentations"), ("Ezek", "Ezekiel"), ("Dan", "Daniel"),
   ("Hos", "Hosea"), ("Joel", "Joel"), ("Amos", "Amos"),
   ("Obad", "Obadiah"), ("Jonah", "Jonah"), ("Mic", "Micah"),
   ("Nah", "Nahum"), ("Hab", "Habakkuk"), ("Zeph", "Zephaniah"),
   ("Hag", "Haggai"), ("Zech", "Zechariah"), ("Mal", "Malachi"),
   ("Matt", "Matthew"), ("Mark", "Mark"), ("Luke", "Luke"),
   ("John", "John"), ("Acts", "Acts"), ("Rom", "Romans"),
   ("1Cor", "1 Corinthians"), ("2Cor", "2 Corinthians"), ("Gal", "Galatians"),
   ("Eph", "Ephesians"), ("Phil", "Philippians"), ("Col", "Colossians"),
   ("1Thess", "1 Thessalonians"), ("2Thess", "2 Thessalonians"),
   ("1Tim", "1 Timothy"), ("2Tim", "2 Timothy"), ("Titus", "Titus"),
   ("Phlm", "Philemon"), ("Heb", "Hebrews"), ("Jas", "James"),
   ("1Pet", "1 Peter"), ("2Pet", "2 Peter"), ("1John", "1 John"),
   ("2John", "2 John"), ("3John", "3 John"), ("Jude", "Jude"),
   ("Rev", "Revelation")]

/-- `osisBookToFullName`: table lookup with the OSIS name itself as
fallback. -/
def osisBookToFullName (osisBook : String) : String :=
  match (OSIS_TO_BOOK_NAME.find? (fun p => p.1 = osisBook)).map (fun p => p.2) with
  | some name => name
  | none => osisBook

/-- A parsed reference (`BibleReference` in `bibleService.ts`); the `osis`
and `displayRef` fields are irrelevant to verse expansion and omitted. -/
structure BibleReference where
  startBook : String
  startChapter : Nat
  startVerse : Nat
  endBook : Option String
  endChapter : Option Nat
  endVerse : Option Nat
deriving DecidableEq, Repr

/-- A verse lookup table, modelling the `Record<string, string>` verse index
(reference string to raw text) as an association list. -/
abbrev VerseIndex : Type := List (String × String)

/-- Association-list lookup modelling JavaScript property/`Map.get` access. -/
def assocLookup (l : List (String × String)) (k : String) : Option String :=
  (l.find? (fun p => p.1 = k)).map (fun p => p.2)

/-- `replace(/^#\s*/, "")`: drop one leading `#` together with the
whitespace that follows it. -/
def stripLeadingHash (cs : List Char) : List Char :=
  match cs with
  | '#' :: rest => rest.dropWhile isWsChar
  | _ => cs

/-- Worker for `stripBrackets`; the fuel argument only serves structural
termination and is always at least the length of the list, so it never runs
out. -/
def stripBracketsAux : Nat → List Char → List Char
  | 0, cs => cs
  | _ + 1, [] => []
  | fuel + 1, '[' :: rest =>
    let content := rest.takeWhile (fun c => c ≠ ']')
    match rest.dropWhile (fun c => c ≠ ']'), content with
    | ']' :: tail, _ :: _ => content ++ stripBracketsAux fuel tail
    | _, _ => '[' :: stripBracketsAux fuel rest
  | fuel + 1, c :: rest => c :: stripBracketsAux fuel rest

/-- `replace(/\[([^\]]+)\]/g, "$1")`: remove the brackets around every
maximal bracketed run of non-`]` characters, left to right. -/
def stripBrackets (cs : List Char) : List Char :=
  stripBracketsAux cs.length cs

/-- The verse-text cleanup shared by `getVerseText` in `bibleService.ts` and
`getTokenDataForVerse` in `smartVersesOfflineParaphraseService.ts`:
`text.replace(/^#\s*/, "").replace(/\[([^\]]+)\]/g, "$1")`. -/
def stripVerseMarkup (text : String) : String :=
  ⟨stripBrackets (stripLeadingHash text.data)⟩

/-- `getVerseText` from `bibleService.ts`: look up `"Book C:V"` and clean
the raw text; `null` when absent. -/
def getVerseText (verses : VerseIndex) (bookName : String) (chapter verse : Nat) :
    Option String :=
  match assocLookup verses (bookName ++ " " ++ toString chapter ++ ":" ++ toString verse) with
  | none => none
  | some text => some (stripVerseMarkup text)

/-- One element of the list returned by `getVersesForReference`. -/
structure VerseData where
  verse : Nat
  chapter : Nat
  book : String
  text : String
  displayRef : String
deriving DecidableEq, Repr

/-- The inclusive range `[a, …, b]` of the `for (let v = a; v <= b; v++)`
loop. -/
def rangeIncl (a b : Nat) : List Nat :=
  (List.range (b + 1 - a)).map (fun i => a + i)

/-- `getVersesForReference` from `bibleService.ts`, with the verse table
passed explicitly (the source obtains it from `loadVerses`).  Same-book,
same-chapter ranges are expanded verse by verse; any other range resolves
only the start verse. -/
def getVersesForReference (verses : VerseIndex) (reference : BibleReference) :
    List VerseData :=
  let startBook := osisBookToFullName reference.startBook
  let startChapter := reference.startChapter
  let startVerse := reference.startVerse
  let endVerse := reference.endVerse.getD startVerse
  let endChapter := reference.endChapter.getD startChapter
  let endBook := match reference.endBook with
    | some b => osisBookToFullName b
    | none => startBook
  if startBook = endBook ∧ startChapter = endChapter then
    (rangeIncl startVerse endVerse).filterMap (fun v =>
      match getVerseText verses startBook startChapter v with
      | some text =>
        some { verse := v, chapter := startChapter, book := startBook, text := text,
               displayRef := startBook ++ " " ++ toString startChapter ++ ":" ++ toString v }
      | none => none)
  else
    match getVerseText verses startBook startChapter startVerse with
    | some text =>
      [{ verse := startVerse, chapter := startChapter, book := startBook, text := text,
         displayRef := startBook ++ " " ++ toString startChapter ++ ":" ++ toString startVerse }]
    | none => []

/-- `BUILTIN_KJV_ID`. -/
def BUILTIN_KJV_ID : String := "kjv"

/-- The slice of a `BibleTranslation` that `loadVerses` consumes: its verse
index. -/
structure Translation where
  verseIndex : VerseIndex
deriving DecidableEq, Repr

/-- The translation table of the loaded library state, as read by
`getTranslationById` (`state.translations[translationId] || null`). -/
abbrev Library : Type := List (String × Translation)

/-- `getTranslationById` against an explicit library state. -/
def getTranslationById (lib : Library) (translationId : String) : Option Translation :=
  (lib.find? (fun p => p.1 = translationId)).map (fun p => p.2)

/-- Association-list overwrite modelling `Map.set` / property assignment on
the verses cache. -/
def cacheSet (cache : List (String × VerseIndex)) (k : String) (v : VerseIndex) :
    List (String × VerseIndex) :=
  if (cache.find? (fun p => p.1 = k)).isSome then
    cache.map (fun p => if p.1 = k then (k, v) else p)
  else cache ++ [(k, v)]

/-- Lookup in the verses cache. -/
def cacheGet (cache : List (String × VerseIndex)) (k : String) : Option VerseIndex :=
  (cache.find? (fun p => p.1 = k)).map (fun p => p.2)

/-- `loadVerses` from `bibleService.ts`, with the module-level
`versesCache` passed and returned explicitly (the in-flight promise map only
de-duplicates concurrent loads and is dropped in this sequential model).
An empty translation id falls back to `BUILTIN_KJV_ID`
(`translationId || BUILTIN_KJV_ID`); an id missing from the library falls
back to the built-in KJV translation; the result is cached under both the
final id and the requested id.  When even the KJV is unavailable the
function throws. -/
def loadVerses (lib : Library) (cache : List (String × VerseIndex))
    (translationId : String) :
    Except String (VerseIndex × List (String × VerseIndex)) :=
  let resolvedId := if translationId = "" then BUILTIN_KJV_ID else translationId
  match cacheGet cache resolvedId with
  | some verses => .ok (verses, cache)
  | none =>
    let translation := getTranslationById lib resolvedId
    let fallback := match translation with
      | some t => some t
      | none => getTranslationById lib BUILTIN_KJV_ID
    match fallback with
    | none => .error "Failed to load built-in KJV translation."
    | some fb =>
      let finalId := if translation.isSome then resolvedId else BUILTIN_KJV_ID
      let cache1 := cacheSet cache finalId fb.verseIndex
      let cache2 := cacheSet cache1 resolvedId fb.verseIndex
      .ok (fb.verseIndex, cache2)

/-! ### bibleTextSearchService.ts -/

/-- One indexed verse (`VerseEntry` in `bibleTextSearchService.ts`). -/
structure IndexedVerse where
  reference : String
  book : String
  chapter : Nat
  verse : Nat
  text : String
deriving DecidableEq, Repr

/-- One search result (`SearchResult` in `bibleTextSearchService.ts`). -/
structure SearchResult where
  reference : String
  text : String
  book : String
  chapter : Nat
  verse : Nat
deriving DecidableEq, Repr

/-- Digit test for the `\d` class. -/
def isDigitChar (c : Char) : Bool := '0' ≤ c && c ≤ '9'

/-- Match the tail pattern `\s+(\d+):(\d+)$` against `cs`: one or more
whitespace characters, digits, a colon, digits, end of string. -/
def matchChapterVerseTail (cs : List Char) : Option (Nat × Nat) :=
  let afterWs := cs.dropWhile isWsChar
  if afterWs.length < cs.length then
    let digits1 := afterWs.takeWhile isDigitChar
    match digits1, afterWs.drop digits1.length with
    | _ :: _, ':' :: rest2 =>
      let digits2 := rest2.takeWhile isDigitChar
      match digits2, rest2.drop digits2.length with
      | _ :: _, [] => some ((String.mk digits1).toNat!, (String.mk digits2).toNat!)
      | _, _ => none
    | _, _ => none
  else none

/-- Worker for `parseVerseReference`: try every split point, shortest book
prefix first (the lazy `(.+?)` of `/^(.+?)\s+(\d+):(\d+)$/`). -/
def parseRefAux (book : List Char) : List Char → Option (String × Nat × Nat)
  | [] => none
  | c :: rest =>
    match matchChapterVerseTail (c :: rest) with
    | some (chapter, verse) =>
      match book with
      | [] => none
      | _ :: _ => some (String.mk book.reverse, chapter, verse)
    | none => parseRefAux (c :: book) rest

/-- `reference.match(/^(.+?)\s+(\d+):(\d+)$/)` from `initializeIndex`:
split a reference string into book name, chapter and verse. -/
def parseVerseReference (reference : String) : Option (String × Nat × Nat) :=
  parseRefAux [] reference.data

/-- Build the verse map of one translation from its raw verse index,
keeping exactly the entries whose reference parses
(`for (const [reference, text] of Object.entries(verses))`). -/
def buildVerseEntries (verses : VerseIndex) : List (String × IndexedVerse) :=
  verses.filterMap (fun p =>
    match parseVerseReference p.1 with
    | some (book, chapter, verse) =>
      some (p.1, { reference := p.1, book := book, chapter := chapter,
                   verse := verse, text := p.2 })
    | none => none)

/-- The module state of `bibleTextSearchService.ts` in the sequential model:
for each translation id that is in `indexedTranslations`, the verse map
(`verseMapByTranslation`); the FlexSearch `Document` object itself is an
oracle (`SearchOracle`), so only its presence is tracked. -/
abbrev SearchState : Type := List (String × List (String × IndexedVerse))

/-- The behaviour of the external FlexSearch library: given the translation
id (identifying the index object and its contents), the query, the limit and
the `suggest` flag, produce either the field results (an array of reference
lists, as `searchIndex.search` returns) or a thrown error. -/
abbrev SearchOracle : Type := String → String → Nat → Bool → Except String (List (List String))

/-- `initializeIndex` from `bibleTextSearchService.ts`, sequential model
(a lone caller; the promise map is only relevant to concurrent callers and
is modelled separately by `enterInitializeIndex`).  A cached translation
returns at once; otherwise the verses are loaded and indexed; a load failure
is logged and rethrown (`throw error` in the catch block). -/
def initializeIndex (loadVersesFor : String → Except String VerseIndex)
    (st : SearchState) (translationId : String) : Except String SearchState :=
  if (st.find? (fun p => p.1 = translationId)).isSome then .ok st
  else
    match loadVersesFor translationId with
    | .error e => .error e
    | .ok verses => .ok (st ++ [(translationId, buildVerseEntries verses)])

/-- Lookup in the verse map, modelling `verseMap.get(reference)`. -/
def verseMapGet (vm : List (String × IndexedVerse)) (reference : String) :
    Option IndexedVerse :=
  (vm.find? (fun p => p.1 = reference)).map (fun p => p.2)

/-- The result-collection loop of `searchBibleText`: walk the FlexSearch
field results, resolve each reference against the verse map, and stop adding
once `limit` results are collected. -/
def collectSearchResults (vm : List (String × IndexedVerse)) (limit : Nat)
    (fieldResults : List (List String)) : List SearchResult :=
  fieldResults.foldl (fun acc fieldResult =>
    fieldResult.foldl (fun acc reference =>
      match verseMapGet vm reference with
      | some entry =>
        if acc.length < limit then
          acc ++ [{ reference := entry.reference, text := entry.text,
                    book := entry.book, chapter := entry.chapter,
                    verse := entry.verse }]
        else acc
      | none => acc) acc) []

/-- The third argument of `searchBibleText`, which is either a translation
id string or an options object (`translationIdOrOptions`). -/
inductive TidOrOptions
  | tid (t : String)
  | opts (suggest : Option Bool)
deriving Repr

/-- `searchBibleText` from `bibleTextSearchService.ts`.  The overloaded
third/fourth arguments are resolved exactly as in the source; the index is
initialized first (a build failure propagates, because the `await
initializeIndex(...)` is outside the `try`), a missing index yields `[]`,
and a FlexSearch error is caught and yields the results collected so far
(none). -/
def searchBibleText (loadVersesFor : String → Except String VerseIndex)
    (flex : SearchOracle) (st : SearchState) (query : String) (limit : Nat)
    (translationIdOrOptions : Option TidOrOptions) (options : Option (Option Bool)) :
    Except String (SearchState × List SearchResult) :=
  let translationId := match translationIdOrOptions with
    | some (.tid t) => t
    | _ => BUILTIN_KJV_ID
  let searchOptions := match translationIdOrOptions with
    | some (.tid _) => options.getD none
    | some (.opts s) => s
    | none => none
  match initializeIndex loadVersesFor st translationId with
  | .error e => .error e
  | .ok st2 =>
    match (st2.find? (fun p => p.1 = translationId)).map (fun p => p.2) with
    | none => .ok (st2, [])
    | some vm =>
      let suggest := searchOptions.getD false
      match flex translationId query limit suggest with
      | .error _ => .ok (st2, [])
      | .ok fieldResults => .ok (st2, collectSearchResults vm limit fieldResults)

/-! ### Concurrent index construction (claim C10)

JavaScript executes on a single thread: each `initializeIndex` call runs
synchronously from its entry until its first `await`.  In the source that
synchronous prefix covers the `indexedTranslations` check, the
`indexPromises` check, the creation of the build promise, and
`indexPromises.set(translationId, promise)` (lines 48-109).  `FlightState`
records the observable module state and `enterInitializeIndex` is that
atomic synchronous prefix; `buildsStarted` counts how many index
constructions have ever been started. -/

structure FlightState where
  indexed : List String
  promises : List String
  buildsStarted : Nat
deriving DecidableEq, Repr

/-- What one caller of `initializeIndex` does before suspending. -/
inductive EnterOutcome
  | alreadyIndexed
  | awaitedExisting
  | startedBuild
deriving DecidableEq, Repr

/-- The synchronous prefix of one `initializeIndex` call. -/
def enterInitializeIndex (s : FlightState) (translationId : String) :
    FlightState × EnterOutcome :=
  if s.indexed.contains translationId then (s, .alreadyIndexed)
  else if s.promises.contains translationId then (s, .awaitedExisting)
  else
    ({ s with promises := translationId :: s.promises,
              buildsStarted := s.buildsStarted + 1 },
     .startedBuild)

/-- `n` concurrent callers entering `initializeIndex` for the same
translation id, interleaved in some order before the build resolves; returns
the final state and each caller's outcome in order. -/
def runEnters (s : FlightState) (translationId : String) : Nat → FlightState × List EnterOutcome
  | 0 => (s, [])
  | n + 1 =>
    let (s1, o) := enterInitializeIndex s translationId
    let (s2, os) := runEnters s1 translationId n
    (s2, o :: os)

/-! ### smartVersesOfflineParaphraseService.ts -/

def DEFAULT_MIN_WORDS : Nat := 4
def DEFAULT_MAX_RESULTS : Nat := 3
def DEFAULT_CANDIDATE_LIMIT : Nat := 120
def DEFAULT_MAX_WINDOWS : Nat := 16
def WINDOW_MIN_WORDS : Nat := 4
def WINDOW_MAX_WORDS : Nat := 18

/-- The `STOP_WORDS` set, listed exactly as in the source (the repeated
entries are harmless in a set and in list membership alike). -/
def STOP_WORDS : List String :=
  ["a", "an", "the", "and", "or", "but", "if", "then", "so", "than", "that", "this",
   "these", "those", "is", "are", "was", "were", "be", "been", "being", "to", "of",
   "in", "on", "for", "with", "as", "at", "by", "from", "into", "over", "under",
   "about", "after", "before", "between", "through", "during", "without", "within",
   "not", "no", "nor", "too", "very", "can", "could", "should", "would", "will",
   "just", "only", "also", "even", "still", "yet", "him", "his", "her", "hers",
   "them", "their", "theirs", "you", "your", "yours", "we", "our", "ours", "i",
   "me", "my", "mine", "he", "she", "they", "it", "its", "us", "our", "ours"]

/-- The curly-quote class `[‘’“”]` of `normalizeText`. -/
def isCurlyQuote (c : Char) : Bool :=
  c == Char.ofNat 0x2018 || c == Char.ofNat 0x2019 ||
    c == Char.ofNat 0x201c || c == Char.ofNat 0x201d

/-- The dash class `[–—]` of `normalizeText`. -/
def isDashChar (c : Char) : Bool :=
  c == Char.ofNat 0x2013 || c == Char.ofNat 0x2014

/-- Lowercase letter / digit test: the characters kept by
`replace(/[^a-z0-9\s]/g, " ")` besides whitespace. -/
def isKeptChar (c : Char) : Bool :=
  ('a' ≤ c && c ≤ 'z') || ('0' ≤ c && c ≤ '9')

/-- `replace(/\s+/g, " ")`: collapse every whitespace run to one space. -/
def collapseWsAux (prevWs : Bool) : List Char → List Char
  | [] => []
  | c :: cs =>
    if isWsChar c then
      (if prevWs then collapseWsAux true cs else ' ' :: collapseWsAux true cs)
    else c :: collapseWsAux false cs

/-- `normalizeText` from `smartVersesOfflineParaphraseService.ts`: lowercase,
map curly quotes to an apostrophe, map en/em dashes to a space, map every
other character outside `[a-z0-9\s]` to a space, collapse whitespace, trim. -/
def normalizeText (text : String) : String :=
  let lowered := toLowerCh text.data
  let unquoted := lowered.map (fun c => if isCurlyQuote c then '\'' else c)
  let undashed := unquoted.map (fun c => if isDashChar c then ' ' else c)
  let kept := undashed.map (fun c => if isKeptChar c || isWsChar c then c else ' ')
  ⟨trimCh (collapseWsAux false kept)⟩

/-- Drop the last `n` characters (JavaScript `slice(0, -n)`). -/
def dropRightCh (cs : List Char) (n : Nat) : List Char :=
  cs.take (cs.length - n)

/-- `lightStem` from `smartVersesOfflineParaphraseService.ts`. -/
def lightStem (token : String) : String :=
  let cs := token.data
  if cs.length ≤ 4 then token
  else if "ing".data.isSuffixOf cs && decide (6 < cs.length) then ⟨dropRightCh cs 3⟩
  else if "ed".data.isSuffixOf cs && decide (5 < cs.length) then ⟨dropRightCh cs 2⟩
  else if "es".data.isSuffixOf cs && decide (5 < cs.length) then ⟨dropRightCh cs 2⟩
  else if "ly".data.isSuffixOf cs && decide (5 < cs.length) then ⟨dropRightCh cs 2⟩
  else if "s".data.isSuffixOf cs && decide (4 < cs.length) then ⟨dropRightCh cs 1⟩
  else token

/-- `normalized.split(" ")` on a char list (split at every single space). -/
def splitOnSpaceAux (cur : List Char) : List Char → List (List Char)
  | [] => [cur.reverse]
  | c :: cs =>
    if c = ' ' then cur.reverse :: splitOnSpaceAux [] cs
    else splitOnSpaceAux (c :: cur) cs

/-- `tokenize` from `smartVersesOfflineParaphraseService.ts`: normalize,
split on spaces, stem, keep tokens longer than 2 characters that are not
stopwords. -/
def tokenize (text : String) : List String :=
  let normalized := normalizeText text
  if normalized = "" then []
  else
    (((splitOnSpaceAux [] normalized.data).map (fun w => lightStem ⟨w⟩)).filter
      (fun t => decide (2 < t.length) && !(STOP_WORDS.contains t)))

/-- `buildBigrams`: adjacent token pairs joined by one space. -/
def buildBigrams (tokens : List String) : List String :=
  if tokens.length < 2 then []
  else (tokens.zip tokens.tail).map (fun p => p.1 ++ " " ++ p.2)

/-- A scoring window (`TextWindow` in the source).  The embedding is the
oracle value attached when semantic scoring is active. -/
structure TextWindow where
  text : String
  tokens : List String
  bigrams : List String
  embedding : Option (List ℚ) := none
deriving DecidableEq, Repr

/-- Sentence-terminator class `[.!?]` of `buildTextWindows`. -/
def isSentenceTerm (c : Char) : Bool := c == '.' || c == '!' || c == '?'

/-- Split at every sentence terminator.  The source splits on runs
(`/[.!?]+/`); splitting at single terminators only introduces extra empty
fragments, which the subsequent `.map(trim).filter(Boolean)` removes, so the
surviving sentences coincide. -/
def splitSentAux (cur : List Char) : List Char → List (List Char)
  | [] => [cur.reverse]
  | c :: cs =>
    if isSentenceTerm c then cur.reverse :: splitSentAux [] cs
    else splitSentAux (c :: cur) cs

/-- Join words with single spaces (`slice.join(" ")`). -/
def joinSpace : List String → String
  | [] => ""
  | [w] => w
  | w :: ws => w ++ " " ++ joinSpace ws

/-- `Math.max(4, Math.floor(WINDOW_MAX_WORDS / 3))`. -/
def slideStep : Nat := Nat.max 4 (WINDOW_MAX_WORDS / 3)

/-- The sliding-window loop of `buildTextWindows` for sentences longer than
`WINDOW_MAX_WORDS`; the fuel argument only bounds the recursion and is
chosen large enough never to run out. -/
def slideWindows (words : List String) (i : Nat) : Nat → List TextWindow
  | 0 => []
  | fuel + 1 =>
    if i < words.length then
      let slice := (words.drop i).take WINDOW_MAX_WORDS
      if slice.length < WINDOW_MIN_WORDS then []
      else
        let windowText := joinSpace slice
        let tokens := tokenize windowText
        let rest := slideWindows words (i + slideStep) fuel
        if WINDOW_MIN_WORDS ≤ tokens.length then
          { text := windowText, tokens := tokens, bigrams := buildBigrams tokens } :: rest
        else rest
    else []

/-- The per-sentence part of `buildTextWindows`: short sentences become one
window (if they tokenize to enough tokens), long sentences are re-sliced. -/
def windowsOfSentence (sentence : List Char) : List TextWindow :=
  let words := splitWsCh sentence
  if words.length ≤ WINDOW_MAX_WORDS then
    let tokens := tokenize ⟨sentence⟩
    if WINDOW_MIN_WORDS ≤ tokens.length then
      [{ text := ⟨sentence⟩, tokens := tokens, bigrams := buildBigrams tokens }]
    else []
  else slideWindows (words.map (fun w => (⟨w⟩ : String))) 0 (words.length + 1)

/-- The `"|"`-joined token key used to deduplicate windows. -/
def joinBar : List String → String
  | [] => ""
  | [t] => t
  | t :: ts => t ++ "|" ++ joinBar ts

/-- Deduplicate windows by token key and cap the total at
`DEFAULT_MAX_WINDOWS` (the loop breaks right after the cap-th push). -/
def dedupWindows : List TextWindow → List String → Nat → List TextWindow
  | [], _, _ => []
  | _, _, 0 => []
  | w :: rest, seen, r + 1 =>
    let key := joinBar w.tokens
    if seen.contains key then dedupWindows rest seen (r + 1)
    else w :: dedupWindows rest (key :: seen) r

/-- `buildTextWindows` from `smartVersesOfflineParaphraseService.ts`. -/
def buildTextWindows (text : String) : List TextWindow :=
  let trimmed := trimCh text.data
  if trimmed.isEmpty then []
  else
    let sentences := ((splitSentAux [] trimmed).map trimCh).filter (fun s => !s.isEmpty)
    let allCandidates := if 0 < sentences.length then sentences else [trimmed]
    let windows := allCandidates.foldl (fun acc s => acc ++ windowsOfSentence s) []
    let fullTokens := tokenize ⟨trimmed⟩
    let windows2 :=
      if WINDOW_MIN_WORDS ≤ fullTokens.length then
        { text := (⟨trimmed⟩ : String), tokens := fullTokens,
          bigrams := buildBigrams fullTokens } :: windows
      else windows
    dedupWindows windows2 [] DEFAULT_MAX_WINDOWS

/-- Insertion-ordered occurrence counting, modelling the `Map` of
`buildKeywordQuery` / `buildBigramQuery`. -/
def bumpCount (acc : List (String × Nat)) (t : String) : List (String × Nat) :=
  if (acc.find? (fun p => p.1 = t)).isSome then
    acc.map (fun p => if p.1 = t then (p.1, p.2 + 1) else p)
  else acc ++ [(t, 1)]

/-- Count the occurrences of each string in first-occurrence order. -/
def countsOf (l : List String) : List (String × Nat) := l.foldl bumpCount []

/-- First-occurrence deduplication, modelling `Array.from(new Set(...))`. -/
def uniqueInOrder (l : List String) : List String :=
  l.foldl (fun acc t => if acc.contains t then acc else acc ++ [t]) []

/-- Stable insertion for the comparator
`(a, b) => b[1] - a[1] != 0 ? b[1] - a[1] : b[0].length - a[0].length`
(count descending, then length descending). -/
def insertByCountLen (e : String × Nat) : List (String × Nat) → List (String × Nat)
  | [] => [e]
  | x :: xs =>
    if e.2 < x.2 ∨ (e.2 = x.2 ∧ e.1.length < x.1.length) then x :: insertByCountLen e xs
    else e :: x :: xs

/-- Stable sort for `buildKeywordQuery`. -/
def sortByCountLen (l : List (String × Nat)) : List (String × Nat) :=
  l.foldr insertByCountLen []

/-- Stable insertion for the comparator `(a, b) => b.length - a.length`. -/
def insertByStrLenDesc (e : String) : List String → List String
  | [] => [e]
  | x :: xs =>
    if e.length < x.length then x :: insertByStrLenDesc e xs
    else e :: x :: xs

/-- Stable sort by string length, descending. -/
def sortByStrLenDesc (l : List String) : List String :=
  l.foldr insertByStrLenDesc []

/-- Stable insertion for the comparator `(a, b) => b[1] - a[1]`. -/
def insertByCountDesc (e : String × Nat) : List (String × Nat) → List (String × Nat)
  | [] => [e]
  | x :: xs =>
    if e.2 < x.2 then x :: insertByCountDesc e xs
    else e :: x :: xs

/-- Stable sort by count, descending. -/
def sortByCountDesc (l : List (String × Nat)) : List (String × Nat) :=
  l.foldr insertByCountDesc []

/-- `buildKeywordQuery`: most frequent tokens first (ties: longer first). -/
def buildKeywordQuery (tokens : List String) (maxTokens : Nat := 8) : String :=
  if tokens.isEmpty then ""
  else joinSpace (((sortByCountLen (countsOf tokens)).take maxTokens).map (fun p => p.1))

/-- `buildKeywordQueryByLength`: longest distinct tokens first. -/
def buildKeywordQueryByLength (tokens : List String) (maxTokens : Nat := 6) : String :=
  if tokens.isEmpty then ""
  else joinSpace ((sortByStrLenDesc (uniqueInOrder tokens)).take maxTokens)

/-- `buildBigramQuery`: most frequent bigrams first. -/
def buildBigramQuery (bigrams : List String) (maxBigrams : Nat := 3) : String :=
  if bigrams.isEmpty then ""
  else joinSpace (((sortByCountDesc (countsOf bigrams)).take maxBigrams).map (fun p => p.1))

/-- `overlapCount`: number of distinct tokens of `a` that occur in `b`. -/
def overlapCount (a b : List String) : Nat :=
  if a.isEmpty || b.isEmpty then 0
  else ((uniqueInOrder a).filter (fun t => b.contains t)).length

/-- `diceCoefficient`: Dice coefficient of the two distinct-element sets. -/
def diceCoefficient (a b : List String) : ℚ :=
  if a.isEmpty || b.isEmpty then 0
  else
    let setA := uniqueInOrder a
    let setB := uniqueInOrder b
    let overlap := (setA.filter (fun t => setB.contains t)).length
    (2 * overlap : ℚ) / ((setA.length : ℚ) + (setB.length : ℚ))

/-- `f1Score`: harmonic mean, zero when either input is non-positive. -/
def f1Score (precision recallScore : ℚ) : ℚ :=
  if precision ≤ 0 ∨ recallScore ≤ 0 then 0
  else 2 * precision * recallScore / (precision + recallScore)

/-- `normalizeScore`: clamp to `[0, 1]` (the `NaN`/`Infinity` guards of the
source are float artifacts with no rational counterpart). -/
def normalizeScore (value : ℚ) : ℚ :=
  if value < 0 then 0 else if 1 < value then 1 else value

/-- The collaborators and module-level caches of
`smartVersesOfflineParaphraseService.ts`, passed explicitly:

* `search` is the shared `searchBibleText` viewed from a successful call
  (query, per-query limit, suggest flag ↦ result list); its failure modes
  are studied separately in the `searchBibleText` model.
* `embedderAvailable` is the outcome of the `getEmbedder()` probe;
  `embedText` is the (fallible) embedding oracle; `cos` abstracts the
  floating-point `cosineSimilarity`.
* `verseTokenCache` / `verseEmbeddingCache` are the module-level caches. -/
structure OfflineCtx where
  search : String → Nat → Bool → List SearchResult
  embedderAvailable : Bool
  embedText : String → Option (List ℚ)
  cos : List ℚ → List ℚ → ℚ
  verseTokenCache : String → Option (List String × List String)
  verseEmbeddingCache : String → Option (List ℚ)

/-- `getTokenDataForVerse`: cached token data, or tokenize the cleaned verse
text (the cache write is invisible within one call because each reference is
processed once). -/
def getTokenDataForVerse (ctx : OfflineCtx) (reference text : String) :
    List String × List String :=
  match ctx.verseTokenCache reference with
  | some cached => cached
  | none =>
    let tokens := tokenize (stripVerseMarkup text)
    (tokens, buildBigrams tokens)

/-- `getVerseEmbedding`: cached embedding, or the embedding oracle (the
in-flight map only de-duplicates concurrent computations). -/
def getVerseEmbedding (ctx : OfflineCtx) (reference text : String) : Option (List ℚ) :=
  match ctx.verseEmbeddingCache reference with
  | some e => some e
  | none => ctx.embedText text

/-- `Map.set` on the insertion-ordered query map: an existing key keeps its
position but its `suggest` flag is overwritten. -/
def querySet (qs : List (String × Bool)) (q : String) (s : Bool) : List (String × Bool) :=
  if (qs.find? (fun p => p.1 = q)).isSome then
    qs.map (fun p => if p.1 = q then (q, s) else p)
  else qs ++ [(q, s)]

/-- The three derived queries of one window inside `collectCandidates`. -/
def addQueriesForWindow (qs : List (String × Bool)) (w : TextWindow) :
    List (String × Bool) :=
  let freqQuery := buildKeywordQuery w.tokens
  let qs := if freqQuery = "" then qs else querySet qs freqQuery false
  let lengthQuery := buildKeywordQueryByLength w.tokens
  let qs := if lengthQuery = "" then qs else querySet qs lengthQuery true
  let bigramQuery := buildBigramQuery w.bigrams
  if bigramQuery = "" then qs else querySet qs bigramQuery true

/-- The inner result loop of `collectCandidates`: add unseen references
until the candidate cap is reached. -/
def addSearchResults (cands : List SearchResult) (results : List SearchResult)
    (maxCandidates : Nat) : List SearchResult :=
  match results with
  | [] => cands
  | r :: rs =>
    if cands.any (fun c => c.reference = r.reference) then
      addSearchResults cands rs maxCandidates
    else
      let cands2 := cands ++ [r]
      if maxCandidates ≤ cands2.length then cands2
      else addSearchResults cands2 rs maxCandidates

/-- The outer query loop of `collectCandidates`. -/
def runQueries (ctx : OfflineCtx) (perQueryLimit maxCandidates : Nat) :
    List (String × Bool) → List SearchResult → List SearchResult
  | [], cands => cands
  | (q, s) :: rest, cands =>
    if maxCandidates ≤ cands.length then cands
    else
      runQueries ctx perQueryLimit maxCandidates rest
        (addSearchResults cands (ctx.search q perQueryLimit s) maxCandidates)

/-- `collectCandidates` from `smartVersesOfflineParaphraseService.ts`. -/
def collectCandidates (ctx : OfflineCtx) (windows : List TextWindow) (limit : Nat) :
    List SearchResult :=
  let maxCandidates := Nat.max 30 limit
  let perQueryLimit := Nat.max 20 (limit / 4)
  let queries := windows.foldl addQueriesForWindow []
  runQueries ctx perQueryLimit maxCandidates queries []

/-- All quantities computed for one (window, candidate) pair inside the
scoring loop of `analyzeTranscriptChunkOffline`. -/
structure WindowScore where
  overlap : Nat
  bigramScore : ℚ
  lexicalScore : ℚ
  semanticScore : ℚ
  score : ℚ
deriving DecidableEq, Repr

/-- The lexical part of the scoring step:
`normalizeScore(0.6 * f1 + 0.4 * bigramScore)` with precision and recall
over `Math.max(count, 1)` denominators. -/
def lexicalScoreOf (windowTokens windowBigrams verseTokens verseBigrams : List String) : ℚ :=
  let overlap := overlapCount windowTokens verseTokens
  let windowTokenCount := (uniqueInOrder windowTokens).length
  let verseTokenCount := (uniqueInOrder verseTokens).length
  let precision := (overlap : ℚ) / (Nat.max windowTokenCount 1 : ℚ)
  let recallScore := (overlap : ℚ) / (Nat.max verseTokenCount 1 : ℚ)
  normalizeScore (0.6 * f1Score precision recallScore + 0.4 * diceCoefficient windowBigrams verseBigrams)

/-- One iteration of the window loop in `analyzeTranscriptChunkOffline`:
overlap, bigram Dice, lexical, semantic and combined scores. -/
def windowScore (ctx : OfflineCtx) (embeddingEnabled : Bool)
    (verseTokens verseBigrams : List String) (verseEmbedding : Option (List ℚ))
    (w : TextWindow) : WindowScore :=
  let overlap := overlapCount w.tokens verseTokens
  let bigramScore := diceCoefficient w.bigrams verseBigrams
  let lexicalScore := lexicalScoreOf w.tokens w.bigrams verseTokens verseBigrams
  let semanticScore : ℚ :=
    if embeddingEnabled then
      match verseEmbedding, w.embedding with
      | some ve, some we => normalizeScore ((ctx.cos we ve + 1) / 2)
      | _, _ => 0
    else 0
  let score :=
    if embeddingEnabled then normalizeScore (0.7 * semanticScore + 0.3 * lexicalScore)
    else lexicalScore
  { overlap := overlap, bigramScore := bigramScore, lexicalScore := lexicalScore,
    semanticScore := semanticScore, score := score }

/-- The eligibility gate `overlapGate || semanticGate`:
`overlap >= 2 || bigramScore >= 0.15`, or, when semantic scoring is active,
`semanticScore >= 0.62`. -/
def passesGate (embeddingEnabled : Bool) (s : WindowScore) : Bool :=
  (decide (2 ≤ s.overlap) || decide ((0.15 : ℚ) ≤ s.bigramScore)) ||
    (embeddingEnabled && decide ((0.62 : ℚ) ≤ s.semanticScore))

/-- The best-window fold of the scoring loop: `(bestScore, bestPhrase,
bestSemantic)`, starting from `(0, "", 0)`; gated-out windows are skipped
and a strictly better score replaces the best. -/
def bestWindow (ctx : OfflineCtx) (embeddingEnabled : Bool)
    (verseTokens verseBigrams : List String) (verseEmbedding : Option (List ℚ))
    (windows : List TextWindow) : ℚ × String × ℚ :=
  windows.foldl (fun best w =>
    let s := windowScore ctx embeddingEnabled verseTokens verseBigrams verseEmbedding w
    if passesGate embeddingEnabled s then
      (if best.1 < s.score then (s.score, w.text, s.semanticScore) else best)
    else best) (0, "", 0)

/-- A scored result (`ParaphrasedVerse` in `types/smartVerses.ts`, the
fields produced here). -/
structure ParaphrasedVerse where
  reference : String
  confidence : ℚ
  matchedPhrase : String
  verseText : String
deriving DecidableEq, Repr

/-- The per-candidate body of the scoring loop, before the
`minConfidence` acceptance test: `none` replays the
`if (verseTokens.length === 0) continue`, and the returned record carries
the penalized best score.  (In the source the threshold test guards the
`matches.push`; the model applies it as a filter on these records, which
yields the same list.) -/
def scoreCandidate (ctx : OfflineCtx) (embeddingEnabled : Bool)
    (windows : List TextWindow) (trimmed : String) (c : SearchResult) :
    Option ParaphrasedVerse :=
  let verseText := c.text
  let td := getTokenDataForVerse ctx c.reference verseText
  if td.1.length = 0 then none
  else
    let verseEmbedding :=
      if embeddingEnabled then getVerseEmbedding ctx c.reference verseText else none
    let best := bestWindow ctx embeddingEnabled td.1 td.2 verseEmbedding windows
    let lengthPenalty : ℚ := if td.1.length < 6 then 0.85 else 1
    let finalScore := normalizeScore (best.1 * lengthPenalty)
    some { reference := c.reference, confidence := finalScore,
           matchedPhrase := if best.2.1 = "" then trimmed else best.2.1,
           verseText := verseText }

/-- Stable insertion for `matches.sort((a, b) => b.confidence - a.confidence)`. -/
def insertByConfDesc (m : ParaphrasedVerse) : List ParaphrasedVerse → List ParaphrasedVerse
  | [] => [m]
  | x :: xs =>
    if m.confidence < x.confidence then x :: insertByConfDesc m xs
    else m :: x :: xs

/-- Stable sort by confidence, descending. -/
def sortByConfDesc (l : List ParaphrasedVerse) : List ParaphrasedVerse :=
  l.foldr insertByConfDesc []

/-- The result shape `TranscriptAnalysisResult` (the fields produced by the
offline analyzer). -/
structure AnalysisResult where
  paraphrasedVerses : List ParaphrasedVerse
  keyPoints : List String
deriving DecidableEq, Repr

/-- The options bag of `analyzeTranscriptChunkOffline`; `none` models an
absent property (`??` picks the default). -/
structure OfflineOptions where
  minConfidence : Option ℚ := none
  maxResults : Option Nat := none
  minWords : Option Nat := none
  useEmbeddings : Option Bool := none
  candidateLimit : Option Nat := none

/-- The candidate list retrieved by one analysis call: the windows (with
embeddings attached when semantic scoring is active) fed to
`collectCandidates`. -/
def windowsUsed (ctx : OfflineCtx) (trimmed : String) (embeddingEnabled : Bool) :
    List TextWindow :=
  let windows0 := buildTextWindows trimmed
  if embeddingEnabled then
    windows0.map (fun w => { w with embedding := ctx.embedText w.text })
  else windows0

/-- `analyzeTranscriptChunkOffline` from
`smartVersesOfflineParaphraseService.ts`. -/
def analyzeTranscriptChunkOffline (ctx : OfflineCtx) (transcriptChunk : String)
    (options : OfflineOptions) : AnalysisResult :=
  let trimmed : String := ⟨trimCh transcriptChunk.data⟩
  if trimmed = "" then { paraphrasedVerses := [], keyPoints := [] }
  else
    let wordCount := (splitWsCh trimmed.data).length
    let minWords := options.minWords.getD DEFAULT_MIN_WORDS
    if wordCount < minWords then { paraphrasedVerses := [], keyPoints := [] }
    else
      let windows0 := buildTextWindows trimmed
      if windows0.length = 0 then { paraphrasedVerses := [], keyPoints := [] }
      else
        let embeddingEnabled := options.useEmbeddings.getD true && ctx.embedderAvailable
        let windows := windowsUsed ctx trimmed embeddingEnabled
        let candidateLimit := options.candidateLimit.getD DEFAULT_CANDIDATE_LIMIT
        let candidates := collectCandidates ctx windows candidateLimit
        let minConfidence := options.minConfidence.getD 0.6
        let scored := candidates.filterMap (scoreCandidate ctx embeddingEnabled windows trimmed)
        let matchList := scored.filter (fun m => minConfidence ≤ m.confidence)
        let sorted := sortByConfDesc matchList
        let maxResults := options.maxResults.getD DEFAULT_MAX_RESULTS
        { paraphrasedVerses := sorted.take maxResults, keyPoints := [] }

/-! ### Specification-side definitions (claim C7)

These two definitions follow the words of the specification, to be compared
with the source-derived `lexicalScoreOf`. -/

/-- Token-overlap F1 as the specification words it: precision =
overlap / window-token-set-size, recall = overlap / verse-token-set-size,
F1 = 0 when either is 0 (division by a zero set size is the rational
convention `x / 0 = 0`). -/
def specTokenF1 (windowTokens verseTokens : List String) : ℚ :=
  let setW := uniqueInOrder windowTokens
  let setV := uniqueInOrder verseTokens
  let overlap := (setW.filter (fun t => setV.contains t)).length
  let precision := (overlap : ℚ) / (setW.length : ℚ)
  let recallScore := (overlap : ℚ) / (setV.length : ℚ)
  if precision = 0 ∨ recallScore = 0 then 0
  else 2 * precision * recallScore / (precision + recallScore)

/-- Bigram Dice coefficient as the specification words it:
`2 × shared-bigrams / total-bigram-set-sizes`. -/
def specBigramDice (windowBigrams verseBigrams : List String) : ℚ :=
  let setW := uniqueInOrder windowBigrams
  let setV := uniqueInOrder verseBigrams
  let shared := (setW.filter (fun t => setV.contains t)).length
  (2 * shared : ℚ) / ((setW.length : ℚ) + (setV.length : ℚ))

/-- The lexical score as the specification words it: `0.6 × F1 + 0.4 ×
Dice`, clamped to `[0, 1]`. -/
def specLexicalScore (windowTokens windowBigrams verseTokens verseBigrams : List String) : ℚ :=
  let raw := 0.6 * specTokenF1 windowTokens verseTokens +
    0.4 * specBigramDice windowBigrams verseBigrams
  if raw < 0 then 0 else if 1 < raw then 1 else raw

/-! ### Concrete scenarios used to instantiate the theorems -/

/-- A `loadVerses` stand-in that always fails. -/
def loadVersesFail : String → Except String VerseIndex := fun _ => .error "load failed"

/-- A one-verse corpus. -/
def johnVerseIndex : VerseIndex := [("John 3:16", "For God so loved the world")]

/-- A `loadVerses` stand-in that always succeeds with the one-verse corpus. -/
def loadVersesJohn : String → Except String VerseIndex := fun _ => .ok johnVerseIndex

/-- A FlexSearch oracle that always throws. -/
def flexBoom : SearchOracle := fun _ _ _ _ => .error "search failed"

/-- A FlexSearch oracle that finds the one verse. -/
def flexJohn : SearchOracle := fun _ _ _ _ => .ok [["John 3:16"]]

/-- A library holding only the built-in KJV translation. -/
def kjvLibrary : Library := [("kjv", ⟨johnVerseIndex⟩)]

/-- The pristine module state of `bibleTextSearchService.ts`. -/
def freshFlight : FlightState := { indexed := [], promises := [], buildsStarted := 0 }

/-- A candidate verse sharing no token with the scenario transcript. -/
def obadiahResult : SearchResult :=
  { reference := "Obadiah 1:1", text := "pomegranate orchard flourish greatly",
    book := "Obadiah", chapter := 1, verse := 1 }

/-- An offline context whose index always retrieves `obadiahResult`;
no embedder, cold caches. -/
def ctxObadiah : OfflineCtx :=
  { search := fun _ _ _ => [obadiahResult], embedderAvailable := false,
    embedText := fun _ => none, cos := fun _ _ => 0,
    verseTokenCache := fun _ => none, verseEmbeddingCache := fun _ => none }

/-- The zero-confidence match produced from `obadiahResult` when the
acceptance threshold is 0. -/
def obadiahMatch : ParaphrasedVerse :=
  { reference := "Obadiah 1:1", confidence := 0,
    matchedPhrase := "faithful servants gather wheat",
    verseText := "pomegranate orchard flourish greatly" }

/-- A candidate verse identical to the scenario transcript. -/
def johnResult : SearchResult :=
  { reference := "John 3:16", text := "god greatly loved whole world today",
    book := "John", chapter := 3, verse := 16 }

/-- An offline context whose index always retrieves `johnResult`. -/
def ctxJohn : OfflineCtx :=
  { search := fun _ _ _ => [johnResult], embedderAvailable := false,
    embedText := fun _ => none, cos := fun _ _ => 0,
    verseTokenCache := fun _ => none, verseEmbeddingCache := fun _ => none }

/-- The perfect-score match produced from `johnResult`. -/
def johnMatch : ParaphrasedVerse :=
  { reference := "John 3:16", confidence := 1,
    matchedPhrase := "god greatly loved whole world today",
    verseText := "god greatly loved whole world today" }

/-- A two-verse corpus in one chapter. -/
def johnVerses2 : VerseIndex := [("John 3:16", "first text"), ("John 3:17", "second text")]

/-- The same-chapter range John 3:16-17. -/
def refJohnRange : BibleReference :=
  { startBook := "John", startChapter := 3, startVerse := 16,
    endBook := none, endChapter := none, endVerse := some 17 }

/-- The cross-chapter range John 3:16-4:1. -/
def refJohnCross : BibleReference :=
  { startBook := "John", startChapter := 3, startVerse := 16,
    endBook := none, endChapter := some 4, endVerse := some 1 }

/-- Whether one analysis call scores semantically: `useEmbeddings !== false`
and the embedder probe succeeded. -/
def analyzeEmbeddingEnabled (ctx : OfflineCtx) (options : OfflineOptions) : Bool :=
  options.useEmbeddings.getD true && ctx.embedderAvailable

/-- The trimmed input of one analysis call. -/
def analyzeTrimmed (text : String) : String := ⟨trimCh text.data⟩

/-- The windows of one analysis call. -/
def analyzeWindows (ctx : OfflineCtx) (text : String) (options : OfflineOptions) :
    List TextWindow :=
  windowsUsed ctx (analyzeTrimmed text) (analyzeEmbeddingEnabled ctx options)

/-- The candidate set of one analysis call. -/
def analyzeCandidates (ctx : OfflineCtx) (text : String) (options : OfflineOptions) :
    List SearchResult :=
  collectCandidates ctx (analyzeWindows ctx text options)
    (options.candidateLimit.getD DEFAULT_CANDIDATE_LIMIT)

/-- The score data computed for the pair of one retrieved candidate and one
window inside the scoring loop. -/
def candidateWindowScore (ctx : OfflineCtx) (embeddingEnabled : Bool)
    (c : SearchResult) (w : TextWindow) : WindowScore :=
  let td := getTokenDataForVerse ctx c.reference c.text
  windowScore ctx embeddingEnabled td.1 td.2
    (if embeddingEnabled then getVerseEmbedding ctx c.reference c.text else none) w

/-! ## Theorems -/

section Theorems

attribute [local semireducible] Rat.add Rat.mul Rat.sub Rat.inv Rat.ofScientific

/-- No alias pattern matches the empty normalized text. -/
theorem testPattern_empty (a : String) : testPattern a "" = false := by
  show scanAt (splitWsCh a.data) none [] = false
  cases hws : splitWsCh a.data with
  | nil => simp [scanAt, testAt, boundaryOk, firstCharOfWords, isWordOpt]
  | cons w ws =>
    cases w with
    | nil => simp [scanAt, testAt, boundaryOk, firstCharOfWords, isWordOpt]
    | cons c cs =>
      simp [scanAt, testAt, boundaryOk, firstCharOfWords, isWordOpt, matchWordsAt,
        List.isPrefixOf]

/-- No entry is cue-eligible against the empty normalized text. -/
theorem cueEligible_empty (h : Bool) (e : AliasEntry) : cueEligible h "" e = false := by
  simp [cueEligible, testPattern_empty]

/-- If the eligibility scan returns an id, some listed entry is eligible
and owns it. -/
theorem findSome_eligible_some (l : List AliasEntry) (p : AliasEntry → Bool) (i : String)
    (h : l.findSome? (fun e => if p e then some e.id else none) = some i) :
    ∃ e, e ∈ l ∧ e.id = i ∧ p e = true := by
  induction l with
  | nil => simp [List.findSome?] at h
  | cons x xs ih =>
    rw [List.findSome?] at h
    by_cases hx : p x = true
    · exact ⟨x, by simp, by simpa [hx] using h, hx⟩
    · rw [if_neg hx] at h
      obtain ⟨e, he, hei, hep⟩ := ih h
      exact ⟨e, by simp [he], hei, hep⟩

/-- If no listed entry is eligible, the scan returns nothing. -/
theorem findSome_eligible_none (l : List AliasEntry) (p : AliasEntry → Bool)
    (h : ∀ e ∈ l, p e = false) :
    l.findSome? (fun e => if p e then some e.id else none) = none := by
  induction l with
  | nil => simp [List.findSome?]
  | cons x xs ih =>
    rw [List.findSome?, if_neg (by simp [h x (by simp)]), ih]
    intro e he
    exact h e (by simp [he])

/-- C1 (amended): `findTranslationCue` returns a translation id only if some
registered alias occurs in the text at a word boundary and either a
contextual cue phrase is present or the matched alias is AT MOST 4
characters long; when no contextual cue is present and every matching alias
is longer than 4 characters, it returns null.  (The original claim had the
length condition reversed: the source accepts short aliases without context
and demands context for long ones.) -/
theorem C1_findTranslationCue_amended (st : AliasState) (text : String) :
    (∀ i, findTranslationCue st text = some i →
      ∃ e, e ∈ st.aliasEntries ∧ e.id = i ∧
        testPattern e.aliasText (normalizeAlias text) = true ∧
        (hasContextCue (normalizeAlias text) = true ∨ e.aliasText.length ≤ 4)) ∧
    (hasContextCue (normalizeAlias text) = false →
      (∀ e ∈ st.aliasEntries, testPattern e.aliasText (normalizeAlias text) = true →
        4 < e.aliasText.length) →
      findTranslationCue st text = none) := by
  constructor
  · intro i h
    by_cases hn : normalizeAlias text = ""
    · simp [findTranslationCue, hn] at h
    · rw [show findTranslationCue st text =
          st.aliasEntries.findSome? (fun e =>
            if cueEligible (hasContextCue (normalizeAlias text)) (normalizeAlias text) e then
              some e.id else none) by simp [findTranslationCue, hn]] at h
      obtain ⟨e, he, hei, hep⟩ := findSome_eligible_some _ _ _ h
      refine ⟨e, he, hei, ?_, ?_⟩
      · exact (Bool.and_eq_true _ _ ▸ hep).1
      · have := (Bool.and_eq_true _ _ ▸ hep).2
        rcases Bool.or_eq_true _ _ ▸ this with hc | hl
        · exact Or.inl hc
        · exact Or.inr (by simpa using hl)
  · intro hctx hlong
    by_cases hn : normalizeAlias text = ""
    · simp [findTranslationCue, hn]
    · rw [show findTranslationCue st text =
          st.aliasEntries.findSome? (fun e =>
            if cueEligible (hasContextCue (normalizeAlias text)) (normalizeAlias text) e then
              some e.id else none) by simp [findTranslationCue, hn]]
      apply findSome_eligible_none
      intro e he
      unfold cueEligible
      by_cases ht : testPattern e.aliasText (normalizeAlias text) = true
      · have := hlong e he ht
        simp [ht, hctx, Nat.not_le_of_lt this, this]
      · simp [Bool.eq_false_iff.mpr ht]

/-- C1 counterexample: on the builtin library, the bare text `"kjv"` has no
contextual cue and its only matching alias (`"kjv"`) is not longer than 4
characters, yet `findTranslationCue` returns the translation id — the claim
as stated requires `null` here. -/
theorem C1_counterexample :
    findTranslationCue (buildAliasIndex [kjvSummary]) "kjv" = some "kjv" ∧
    hasContextCue (normalizeAlias "kjv") = false ∧
    ((buildAliasIndex [kjvSummary]).aliasEntries.all
      (fun e => !(testPattern e.aliasText (normalizeAlias "kjv") &&
        decide (4 < e.aliasText.length)))) = true := by
  refine ⟨by decide, by decide, by decide⟩

/-- C1 witness: both directions of the amended theorem exercised on the
builtin library. -/
theorem C1_witness :
    (∃ e, e ∈ (buildAliasIndex [kjvSummary]).aliasEntries ∧ e.id = "kjv" ∧
      testPattern e.aliasText (normalizeAlias "the kjv") = true ∧
      (hasContextCue (normalizeAlias "the kjv") = true ∨ e.aliasText.length ≤ 4)) ∧
    findTranslationCue (buildAliasIndex [kjvSummary]) "king james" = none :=
  ⟨(C1_findTranslationCue_amended (buildAliasIndex [kjvSummary]) "the kjv").1 "kjv" (by decide),
   (C1_findTranslationCue_amended (buildAliasIndex [kjvSummary]) "king james").2
     (by decide) (by decide)⟩

/-- Membership through length-ordered insertion. -/
theorem mem_insertByLenDesc (e a : AliasEntry) (l : List AliasEntry) :
    a ∈ insertByLenDesc e l ↔ a = e ∨ a ∈ l := by
  induction l with
  | nil => simp [insertByLenDesc]
  | cons x xs ih =>
    by_cases h : x.aliasText.length ≤ e.aliasText.length
    · simp [insertByLenDesc, h]
    · simp [insertByLenDesc, h, ih]
      tauto

/-- Length-ordered insertion preserves the non-increasing-length invariant. -/
theorem pairwise_insertByLenDesc (e : AliasEntry) (l : List AliasEntry)
    (hl : l.Pairwise (fun a b => b.aliasText.length ≤ a.aliasText.length)) :
    (insertByLenDesc e l).Pairwise (fun a b => b.aliasText.length ≤ a.aliasText.length) := by
  induction l with
  | nil => simp [insertByLenDesc]
  | cons x xs ih =>
    rw [List.pairwise_cons] at hl
    by_cases h : x.aliasText.length ≤ e.aliasText.length
    · rw [insertByLenDesc, if_pos h, List.pairwise_cons]
      refine ⟨?_, List.pairwise_cons.mpr hl⟩
      intro b hb
      rcases List.mem_cons.mp hb with rfl | hb2
      · exact h
      · exact le_trans (hl.1 b hb2) h
    · rw [insertByLenDesc, if_neg h, List.pairwise_cons]
      refine ⟨?_, ih hl.2⟩
      intro b hb
      rcases (mem_insertByLenDesc e b xs).mp hb with rfl | hb2
      · omega
      · exact hl.1 b hb2

/-- The sorted entry list is ordered by non-increasing alias length. -/
theorem pairwise_sortByLenDesc (l : List AliasEntry) :
    (sortByLenDesc l).Pairwise (fun a b => b.aliasText.length ≤ a.aliasText.length) := by
  induction l with
  | nil => simp [sortByLenDesc]
  | cons x xs ih => exact pairwise_insertByLenDesc x _ ih

/-- On a length-sorted list, the first eligible entry is at least as long as
every eligible entry. -/
theorem findSome_first_longest (l : List AliasEntry) (p : AliasEntry → Bool)
    (hs : l.Pairwise (fun a b => b.aliasText.length ≤ a.aliasText.length))
    (e : AliasEntry) (he : e ∈ l) (hp : p e = true) :
    ∃ e₀, e₀ ∈ l ∧
      (l.findSome? (fun x => if p x then some x.id else none)) = some e₀.id ∧
      p e₀ = true ∧ e.aliasText.length ≤ e₀.aliasText.length := by
  induction l with
  | nil => simp at he
  | cons x xs ih =>
    rw [List.pairwise_cons] at hs
    by_cases hx : p x = true
    · refine ⟨x, by simp, ?_, hx, ?_⟩
      · rw [List.findSome?, if_pos hx]
      · rcases List.mem_cons.mp he with rfl | he2
        · exact le_refl _
        · exact hs.1 e he2
    · have he2 : e ∈ xs := by
        rcases List.mem_cons.mp he with rfl | h
        · exact absurd hp hx
        · exact h
      obtain ⟨e₀, he₀, hfind, hpe₀, hlen⟩ := ih hs.2 he2
      refine ⟨e₀, by simp [he₀], ?_, hpe₀, hlen⟩
      rw [List.findSome?, if_neg hx, hfind]

/-- C8: in every built library state the alias entry list is ordered by
non-increasing alias length, and whenever some entry matches the text and is
eligible under the current conditions, `findTranslationCue` selects an
eligible entry whose alias is at least as long — a shorter alias is never
selected over a longer alias that also matches under the same conditions. -/
theorem C8_alias_priority (summaries : List TranslationSummary) (text : String) :
    ((buildAliasIndex summaries).aliasEntries.Pairwise
      (fun a b => b.aliasText.length ≤ a.aliasText.length)) ∧
    (∀ e, e ∈ (buildAliasIndex summaries).aliasEntries →
      cueEligible (hasContextCue (normalizeAlias text)) (normalizeAlias text) e = true →
      ∃ e₀, e₀ ∈ (buildAliasIndex summaries).aliasEntries ∧
        findTranslationCue (buildAliasIndex summaries) text = some e₀.id ∧
        cueEligible (hasContextCue (normalizeAlias text)) (normalizeAlias text) e₀ = true ∧
        e.aliasText.length ≤ e₀.aliasText.length) := by
  constructor
  · exact pairwise_sortByLenDesc _
  · intro e he hp
    by_cases hn : normalizeAlias text = ""
    · rw [hn] at hp
      simp [cueEligible_empty] at hp
    · have := findSome_first_longest (buildAliasIndex summaries).aliasEntries
        (cueEligible (hasContextCue (normalizeAlias text)) (normalizeAlias text))
        (pairwise_sortByLenDesc _) e he hp
      obtain ⟨e₀, he₀, hfind, hpe₀, hlen⟩ := this
      refine ⟨e₀, he₀, ?_, hpe₀, hlen⟩
      simpa [findTranslationCue, hn] using hfind

/-- C8 witness: on the builtin library and the text `"in the king james"`,
the eligible alias `"king james"` is found and no eligible alias is longer. -/
theorem C8_witness :
    ∃ e₀, e₀ ∈ (buildAliasIndex [kjvSummary]).aliasEntries ∧
      findTranslationCue (buildAliasIndex [kjvSummary]) "in the king james" = some e₀.id ∧
      cueEligible (hasContextCue (normalizeAlias "in the king james"))
        (normalizeAlias "in the king james") e₀ = true ∧
      (AliasEntry.mk "king james" "kjv").aliasText.length ≤ e₀.aliasText.length :=
  (C8_alias_priority [kjvSummary] "in the king james").2
    (AliasEntry.mk "king james" "kjv") (by decide) (by decide)

/-- Overwriting a cache key makes it retrievable. -/
theorem cacheGet_cacheSet_same (c : List (String × VerseIndex)) (k : String) (v : VerseIndex) :
    cacheGet (cacheSet c k v) k = some v := by
  unfold cacheSet
  by_cases h : (c.find? (fun p => p.1 = k)).isSome
  · rw [if_pos h]
    induction c with
    | nil => simp [List.find?] at h
    | cons p ps ih =>
      by_cases hp : p.1 = k
      · simp [cacheGet, List.find?, hp]
      · rw [List.find?] at h
        simp only [hp, decide_eq_false, Bool.false_eq_true, if_false] at h
        simp only [List.map_cons, if_neg hp]
        rw [cacheGet, List.find?]
        simp only [hp, decide_eq_false, Bool.false_eq_true, if_false]
        exact ih h
  · rw [if_neg h]
    induction c with
    | nil => simp [cacheGet, List.find?]
    | cons p ps ih =>
      by_cases hp : p.1 = k
      · rw [List.find?] at h
        simp [hp] at h
      · rw [List.find?] at h
        simp only [hp, decide_eq_false, Bool.false_eq_true, if_false] at h
        rw [List.cons_append, cacheGet, List.find?]
        simp only [hp, decide_eq_false, Bool.false_eq_true, if_false]
        exact ih h

/-- C9: `loadVerses` called with a translation id that is absent from the
library (and not yet cached) silently falls back to the built-in KJV
translation: it returns the KJV verse index and caches it under the unknown
id instead of failing or returning an empty map. -/
theorem C9_loadVerses_kjv_fallback (lib : Library) (cache : List (String × VerseIndex))
    (tid : String) (kjvT : Translation)
    (hne : tid ≠ "")
    (hmiss : getTranslationById lib tid = none)
    (hkjv : getTranslationById lib BUILTIN_KJV_ID = some kjvT)
    (hcold : cacheGet cache tid = none) :
    ∃ cache2, loadVerses lib cache tid = .ok (kjvT.verseIndex, cache2) ∧
      cacheGet cache2 tid = some kjvT.verseIndex := by
  refine ⟨cacheSet (cacheSet cache BUILTIN_KJV_ID kjvT.verseIndex) tid kjvT.verseIndex, ?_, ?_⟩
  · simp only [loadVerses, if_neg hne, hcold, hmiss, hkjv]
    rfl
  · exact cacheGet_cacheSet_same _ _ _

/-- C9 witness: the unknown id `"unknown-id"` against a library holding only
the KJV. -/
theorem C9_witness :
    ∃ cache2, loadVerses kjvLibrary [] "unknown-id" =
        .ok ((Translation.mk johnVerseIndex).verseIndex, cache2) ∧
      cacheGet cache2 "unknown-id" = some (Translation.mk johnVerseIndex).verseIndex :=
  C9_loadVerses_kjv_fallback kjvLibrary [] "unknown-id" (Translation.mk johnVerseIndex)
    (by decide) (by decide) (by decide) (by decide)

/-- Once a promise for the translation is registered (and it is not yet
indexed), every further entering caller just awaits it and the state is
unchanged. -/
theorem runEnters_awaiting (s : FlightState) (t : String) (n : Nat)
    (hidx : s.indexed.contains t = false)
    (hprom : s.promises.contains t = true) :
    runEnters s t n = (s, List.replicate n .awaitedExisting) := by
  induction n with
  | zero => simp [runEnters]
  | succ m ih =>
    rw [runEnters]
    simp only [enterInitializeIndex, hidx, hprom]
    simp [ih, List.replicate_succ]

/-- C10: starting from a state with no index and no in-flight build for the
translation id, `n ≥ 1` concurrent `initializeIndex` callers (entering in
any order before the build resolves) start exactly one index construction:
the first caller starts the build, every other caller awaits the same
registered promise, and the build counter rises by exactly one. -/
theorem C10_single_inflight_build (s : FlightState) (t : String) (n : Nat)
    (hidx : s.indexed.contains t = false)
    (hprom : s.promises.contains t = false)
    (hn : 1 ≤ n) :
    (runEnters s t n).2 =
      EnterOutcome.startedBuild :: List.replicate (n - 1) EnterOutcome.awaitedExisting ∧
    (runEnters s t n).1.buildsStarted = s.buildsStarted + 1 := by
  cases n with
  | zero => omega
  | succ m =>
    rw [runEnters]
    simp only [enterInitializeIndex, hidx, hprom]
    rw [if_neg (by simp [hidx]), if_neg (by simp [hprom])]
    have hrest := runEnters_awaiting
      { s with promises := t :: s.promises, buildsStarted := s.buildsStarted + 1 } t m
      (by simpa using hidx) (by simp)
    simp [hrest]

/-- C10 witness: three concurrent first-use callers on the pristine state. -/
theorem C10_witness :
    (runEnters freshFlight "kjv" 3).2 =
      EnterOutcome.startedBuild :: List.replicate 2 EnterOutcome.awaitedExisting ∧
    (runEnters freshFlight "kjv" 3).1.buildsStarted = freshFlight.buildsStarted + 1 :=
  C10_single_inflight_build freshFlight "kjv" 3 (by decide) (by decide) (by decide)

/-- A key just appended to an association list is found. -/
theorem find_append_isSome (st : SearchState) (t : String)
    (vm : List (String × IndexedVerse)) :
    ((st ++ [(t, vm)]).find? (fun p => p.1 = t)).isSome = true := by
  induction st with
  | nil => simp [List.find?]
  | cons x xs ih =>
    by_cases hx : x.1 = t <;> simp [List.find?, hx, ih]

/-- After a successful initialization the translation has an index entry. -/
theorem initializeIndex_isSome (load : String → Except String VerseIndex)
    (st : SearchState) (t : String) (st2 : SearchState)
    (h : initializeIndex load st t = .ok st2) :
    (st2.find? (fun p => p.1 = t)).isSome = true := by
  unfold initializeIndex at h
  by_cases hp : (st.find? (fun p => p.1 = t)).isSome = true
  · rw [if_pos hp] at h
    cases h
    exact hp
  · rw [if_neg hp] at h
    cases hload : load t with
    | error e => rw [hload] at h; cases h
    | ok v =>
      rw [hload] at h
      cases h
      exact find_append_isSome st t _

/-- C2 (amended): `searchBibleText` never throws once index initialization
succeeds — with the translation already indexed or its verses loadable, it
returns a result list, and an internal FlexSearch error is swallowed into
the empty list — but a failed index build is NOT swallowed: the error
propagates to the caller (`await initializeIndex` sits outside the
`try`/`catch`). -/
theorem C2_searchBibleText_amended (load : String → Except String VerseIndex)
    (flex : SearchOracle) (st : SearchState) (query : String) (limit : Nat)
    (t : String) (opts : Option (Option Bool)) :
    ((st.find? (fun p => p.1 = t)).isSome = true ∨ (∃ v, load t = .ok v) →
      ∃ res, searchBibleText load flex st query limit (some (.tid t)) opts = .ok res) ∧
    (∀ st2 e2, initializeIndex load st t = .ok st2 →
      flex t query limit ((opts.getD none).getD false) = .error e2 →
      searchBibleText load flex st query limit (some (.tid t)) opts = .ok (st2, [])) ∧
    (∀ e, (st.find? (fun p => p.1 = t)).isSome = false → load t = .error e →
      searchBibleText load flex st query limit (some (.tid t)) opts = .error e) := by
  refine ⟨?_, ?_, ?_⟩
  · intro h1
    have hinit : ∃ st2, initializeIndex load st t = .ok st2 := by
      unfold initializeIndex
      rcases h1 with hp | ⟨v, hv⟩
      · exact ⟨st, by rw [if_pos hp]⟩
      · by_cases hp : (st.find? (fun p => p.1 = t)).isSome = true
        · exact ⟨st, by rw [if_pos hp]⟩
        · exact ⟨_, by rw [if_neg hp, hv]⟩
    obtain ⟨st2, hinit⟩ := hinit
    have hsome := initializeIndex_isSome load st t st2 hinit
    rw [Option.isSome_iff_exists] at hsome
    obtain ⟨p, hp⟩ := hsome
    unfold searchBibleText
    simp only [hinit, hp, Option.map_some]
    cases flex t query limit ((opts.getD none).getD false) with
    | error e => exact ⟨_, rfl⟩
    | ok fr => exact ⟨_, rfl⟩
  · intro st2 e2 hinit hflex
    have hsome := initializeIndex_isSome load st t st2 hinit
    rw [Option.isSome_iff_exists] at hsome
    obtain ⟨p, hp⟩ := hsome
    unfold searchBibleText
    simp only [hinit, hp, Option.map_some, hflex]
    rfl
  · intro e hp hload
    simp only [searchBibleText, initializeIndex]
    rw [if_neg (by simp [hp]), hload]

/-- C2 counterexample: when the index build fails (here: `loadVerses`
throws), `searchBibleText` propagates the error instead of returning the
empty result list — the claim that it never throws on a failed index build
is false. -/
theorem C2_counterexample :
    searchBibleText loadVersesFail flexJohn [] "love" 10 none none =
      .error "load failed" := by
  rfl

/-- C2 witness: the amended theorem exercised on concrete inputs — a
successful load yields a result, a FlexSearch error yields the empty list,
and a failed load propagates. -/
theorem C2_witness :
    (∃ res, searchBibleText loadVersesJohn flexJohn [] "loved" 10
      (some (.tid "kjv")) none = .ok res) ∧
    searchBibleText loadVersesJohn flexBoom [] "loved" 10
      (some (.tid "kjv")) none = .ok ([("kjv", buildVerseEntries johnVerseIndex)], []) ∧
    searchBibleText loadVersesFail flexJohn [] "loved" 10
      (some (.tid "kjv")) none = .error "load failed" :=
  ⟨(C2_searchBibleText_amended loadVersesJohn flexJohn [] "loved" 10 "kjv" none).1
      (Or.inr ⟨johnVerseIndex, rfl⟩),
   (C2_searchBibleText_amended loadVersesJohn flexBoom [] "loved" 10 "kjv" none).2.1
      [("kjv", buildVerseEntries johnVerseIndex)] "search failed" (by rfl) (by rfl),
   (C2_searchBibleText_amended loadVersesFail flexJohn [] "loved" 10 "kjv" none).2.2
      "load failed" (by rfl) (by rfl)⟩

/-- C5: when the whitespace-separated word count of the trimmed input is
below `minWords` (default 4), `analyzeTranscriptChunkOffline` returns the
empty result immediately, for EVERY context — in particular the result does
not depend on the search index, the embedder or the caches, none of which
are consulted. -/
theorem C5_minWords_early_return (text : String) (options : OfflineOptions)
    (h : (splitWsCh (trimCh text.data)).length < options.minWords.getD DEFAULT_MIN_WORDS) :
    ∀ ctx : OfflineCtx, analyzeTranscriptChunkOffline ctx text options =
      { paraphrasedVerses := [], keyPoints := [] } := by
  intro ctx
  by_cases ht : (⟨trimCh text.data⟩ : String) = ""
  · simp only [analyzeTranscriptChunkOffline, ht]
    simp
  · simp only [analyzeTranscriptChunkOffline]
    rw [if_neg ht, if_pos h]

/-- C5 witness: a three-word input under the default `minWords = 4`. -/
theorem C5_witness :
    analyzeTranscriptChunkOffline ctxJohn "too few words" {} =
      { paraphrasedVerses := [], keyPoints := [] } :=
  C5_minWords_early_return "too few words" {} (by decide) ctxJohn

/-- Membership in the inclusive verse range. -/
theorem mem_rangeIncl (a b v : Nat) : v ∈ rangeIncl a b ↔ a ≤ v ∧ v ≤ b := by
  simp only [rangeIncl, List.mem_map, List.mem_range]
  constructor
  · rintro ⟨i, hi, rfl⟩
    omega
  · rintro ⟨h1, h2⟩
    exact ⟨v - a, by omega, by omega⟩

/-- C6: for a range within one (resolved) book and one chapter,
`getVersesForReference` returns exactly one entry per verse of the range
that is found in the corpus; for any cross-chapter or cross-book range it
returns at most the single entry for the start verse. -/
theorem C6_getVersesForReference_ranges (verses : VerseIndex) (reference : BibleReference) :
    ((osisBookToFullName reference.startBook =
        (match reference.endBook with
         | some b => osisBookToFullName b
         | none => osisBookToFullName reference.startBook) ∧
      reference.startChapter = reference.endChapter.getD reference.startChapter) →
      ∀ e, e ∈ getVersesForReference verses reference ↔
        (reference.startVerse ≤ e.verse ∧
         e.verse ≤ reference.endVerse.getD reference.startVerse ∧
         e.book = osisBookToFullName reference.startBook ∧
         e.chapter = reference.startChapter ∧
         getVerseText verses (osisBookToFullName reference.startBook)
           reference.startChapter e.verse = some e.text ∧
         e.displayRef = osisBookToFullName reference.startBook ++ " " ++
           toString reference.startChapter ++ ":" ++ toString e.verse)) ∧
    (¬(osisBookToFullName reference.startBook =
        (match reference.endBook with
         | some b => osisBookToFullName b
         | none => osisBookToFullName reference.startBook) ∧
      reference.startChapter = reference.endChapter.getD reference.startChapter) →
      (getVersesForReference verses reference).length ≤ 1 ∧
      ∀ e, e ∈ getVersesForReference verses reference →
        e.verse = reference.startVerse ∧
        getVerseText verses (osisBookToFullName reference.startBook)
          reference.startChapter reference.startVerse = some e.text) := by
  constructor
  · intro hsame e
    rw [show getVersesForReference verses reference =
        (rangeIncl reference.startVerse (reference.endVerse.getD reference.startVerse)).filterMap
          (fun v =>
            match getVerseText verses (osisBookToFullName reference.startBook)
                reference.startChapter v with
            | some text =>
              some { verse := v, chapter := reference.startChapter,
                     book := osisBookToFullName reference.startBook, text := text,
                     displayRef := osisBookToFullName reference.startBook ++ " " ++
                       toString reference.startChapter ++ ":" ++ toString v }
            | none => none) by
      simp only [getVersesForReference]
      rw [if_pos hsame]]
    rw [List.mem_filterMap]
    constructor
    · rintro ⟨v, hv, hfv⟩
      rw [mem_rangeIncl] at hv
      cases hlook : getVerseText verses (osisBookToFullName reference.startBook)
          reference.startChapter v with
      | none => rw [hlook] at hfv; cases hfv
      | some text =>
        rw [hlook] at hfv
        cases hfv
        exact ⟨hv.1, hv.2, rfl, rfl, hlook, rfl⟩
    · rintro ⟨h1, h2, hbook, hchap, hlook, hdisp⟩
      refine ⟨e.verse, (mem_rangeIncl _ _ _).mpr ⟨h1, h2⟩, ?_⟩
      rw [hlook]
      cases e
      simp only at hbook hchap hlook hdisp
      simp [hbook, hchap, hdisp]
  · intro hdiff
    rw [show getVersesForReference verses reference =
        (match getVerseText verses (osisBookToFullName reference.startBook)
            reference.startChapter reference.startVerse with
         | some text =>
           [{ verse := reference.startVerse, chapter := reference.startChapter,
              book := osisBookToFullName reference.startBook, text := text,
              displayRef := osisBookToFullName reference.startBook ++ " " ++
                toString reference.startChapter ++ ":" ++
                toString reference.startVerse }]
         | none => []) by
      simp only [getVersesForReference]
      rw [if_neg hdiff]]
    cases hlook : getVerseText verses (osisBookToFullName reference.startBook)
        reference.startChapter reference.startVerse with
    | none => simp
    | some text =>
      refine ⟨by simp, ?_⟩
      intro e he
      rw [List.mem_singleton] at he
      subst he
      exact ⟨rfl, rfl⟩

/-- C6 witness: the same-chapter range John 3:16-17 expands to both verses;
the cross-chapter range John 3:16-4:1 resolves only the start verse. -/
theorem C6_witness :
    (VerseData.mk 17 3 "John" "second text" "John 3:17" ∈
      getVersesForReference johnVerses2 refJohnRange) ∧
    (getVersesForReference johnVerses2 refJohnCross).length ≤ 1 :=
  ⟨((C6_getVersesForReference_ranges johnVerses2 refJohnRange).1 (by decide)
      (VerseData.mk 17 3 "John" "second text" "John 3:17")).mpr (by decide),
   ((C6_getVersesForReference_ranges johnVerses2 refJohnCross).2 (by decide)).1⟩

/-- Membership survives first-occurrence deduplication (generalized over the
accumulator). -/
theorem mem_uniqueInOrder_aux (l acc : List String) (a : String) :
    a ∈ l.foldl (fun acc t => if acc.contains t then acc else acc ++ [t]) acc ↔
      a ∈ acc ∨ a ∈ l := by
  induction l generalizing acc with
  | nil => simp
  | cons x xs ih =>
    rw [List.foldl_cons, ih]
    by_cases hx : acc.contains x = true
    · rw [if_pos hx]
      have hmem : x ∈ acc := by simpa using hx
      constructor
      · rintro (h | h)
        · exact Or.inl h
        · simp [h]
      · rintro (h | h)
        · exact Or.inl h
        · rcases List.mem_cons.mp h with rfl | h2
          · exact Or.inl hmem
          · exact Or.inr h2
    · rw [if_neg hx]
      simp [List.mem_append, List.mem_cons]
      tauto

/-- Membership in `uniqueInOrder`. -/
theorem mem_uniqueInOrder (l : List String) (a : String) :
    a ∈ uniqueInOrder l ↔ a ∈ l := by
  rw [show uniqueInOrder l =
      List.foldl (fun acc t => if acc.contains t then acc else acc ++ [t]) [] l from rfl,
    mem_uniqueInOrder_aux]
  simp

/-- `contains` agrees between a list and its deduplication. -/
theorem contains_uniqueInOrder (l : List String) (a : String) :
    l.contains a = (uniqueInOrder l).contains a := by
  rcases h : l.contains a with _ | _
  · have hm : ¬ a ∈ l := by simpa using h
    have : ¬ a ∈ uniqueInOrder l := fun hc => hm ((mem_uniqueInOrder l a).mp hc)
    simpa using this
  · have hm : a ∈ l := by simpa using h
    have : a ∈ uniqueInOrder l := (mem_uniqueInOrder l a).mpr hm
    simpa using this

/-- `uniqueInOrder` is empty exactly on the empty list. -/
theorem uniqueInOrder_nil_iff (l : List String) : uniqueInOrder l = [] ↔ l = [] := by
  constructor
  · intro h
    cases l with
    | nil => rfl
    | cons x xs =>
      have : x ∈ uniqueInOrder (x :: xs) := (mem_uniqueInOrder _ _).mpr (by simp)
      rw [h] at this
      simp at this
  · rintro rfl
    rfl

/-- The shared-distinct-element count used by the specification agrees with
the source `overlapCount`. -/
theorem overlapCount_eq_spec (a b : List String) :
    ((uniqueInOrder a).filter (fun t => (uniqueInOrder b).contains t)).length =
      overlapCount a b := by
  unfold overlapCount
  by_cases ha : a = []
  · subst ha
    simp [uniqueInOrder]
  · by_cases hb : b = []
    · subst hb
      rw [if_pos (by simp)]
      rw [List.length_eq_zero]
      rw [List.filter_eq_nil_iff]
      intro t _
      simp [uniqueInOrder]
    · rw [if_neg (by simp [List.isEmpty_iff, ha, hb])]
      congr 1
      apply List.filter_congr
      intro t _
      exact (contains_uniqueInOrder b t).symm

/-- The source Dice coefficient equals the specification formula. -/
theorem diceCoefficient_eq_spec (a b : List String) :
    diceCoefficient a b = specBigramDice a b := by
  unfold diceCoefficient specBigramDice
  by_cases ha : a = []
  · subst ha
    simp [uniqueInOrder]
  · by_cases hb : b = []
    · subst hb
      rw [if_pos (by simp)]
      have hz : ((uniqueInOrder a).filter
          (fun t => (uniqueInOrder ([] : List String)).contains t)).length = 0 := by
        rw [List.length_eq_zero, List.filter_eq_nil_iff]
        intro t _
        simp [uniqueInOrder]
      dsimp only
      rw [hz]
      simp
    · rw [if_neg (by simp [List.isEmpty_iff, ha, hb])]

/-- The F1 part of the scoring step equals the specification F1 (precision
and recall over the raw set sizes, zero when either vanishes). -/
theorem f1Score_eq_spec (wt vt : List String) :
    f1Score ((overlapCount wt vt : ℚ) / (Nat.max (uniqueInOrder wt).length 1 : ℚ))
      ((overlapCount wt vt : ℚ) / (Nat.max (uniqueInOrder vt).length 1 : ℚ)) =
    (if (overlapCount wt vt : ℚ) / ((uniqueInOrder wt).length : ℚ) = 0 ∨
        (overlapCount wt vt : ℚ) / ((uniqueInOrder vt).length : ℚ) = 0 then 0
     else 2 * ((overlapCount wt vt : ℚ) / ((uniqueInOrder wt).length : ℚ)) *
        ((overlapCount wt vt : ℚ) / ((uniqueInOrder vt).length : ℚ)) /
        ((overlapCount wt vt : ℚ) / ((uniqueInOrder wt).length : ℚ) +
         (overlapCount wt vt : ℚ) / ((uniqueInOrder vt).length : ℚ))) := by
  by_cases hw : (uniqueInOrder wt).length = 0
  · have hwnil : wt = [] := (uniqueInOrder_nil_iff wt).mp (List.length_eq_zero.mp hw)
    have hov : overlapCount wt vt = 0 := by
      subst hwnil
      simp [overlapCount]
    rw [hov, hw]
    simp [f1Score]
  · by_cases hv : (uniqueInOrder vt).length = 0
    · have hvnil : vt = [] := (uniqueInOrder_nil_iff vt).mp (List.length_eq_zero.mp hv)
      have hov : overlapCount wt vt = 0 := by
        subst hvnil
        simp [overlapCount, List.isEmpty_iff]
      rw [hov, hv]
      simp [f1Score]
    · have hmw : (uniqueInOrder wt).length.max 1 = (uniqueInOrder wt).length := by
        exact max_eq_left (by omega)
      have hmv : (uniqueInOrder vt).length.max 1 = (uniqueInOrder vt).length := by
        exact max_eq_left (by omega)
      rw [hmw, hmv]
      unfold f1Score
      have hpnn : (0 : ℚ) ≤ (overlapCount wt vt : ℚ) / ((uniqueInOrder wt).length : ℚ) :=
        div_nonneg (Nat.cast_nonneg _) (Nat.cast_nonneg _)
      have hrnn : (0 : ℚ) ≤ (overlapCount wt vt : ℚ) / ((uniqueInOrder vt).length : ℚ) :=
        div_nonneg (Nat.cast_nonneg _) (Nat.cast_nonneg _)
      have hple : ((overlapCount wt vt : ℚ) / ((uniqueInOrder wt).length : ℚ) ≤ 0 ↔
          (overlapCount wt vt : ℚ) / ((uniqueInOrder wt).length : ℚ) = 0) :=
        ⟨fun h => le_antisymm h hpnn, fun h => h.le⟩
      have hrle : ((overlapCount wt vt : ℚ) / ((uniqueInOrder vt).length : ℚ) ≤ 0 ↔
          (overlapCount wt vt : ℚ) / ((uniqueInOrder vt).length : ℚ) = 0) :=
        ⟨fun h => le_antisymm h hrnn, fun h => h.le⟩
      simp only [hple, hrle]

/-- The lexical score of the scoring loop equals the specification formula. -/
theorem lexicalScoreOf_eq_spec (wt wb vt vb : List String) :
    lexicalScoreOf wt wb vt vb = specLexicalScore wt wb vt vb := by
  unfold lexicalScoreOf specLexicalScore specTokenF1 normalizeScore
  dsimp only
  rw [overlapCount_eq_spec, diceCoefficient_eq_spec, f1Score_eq_spec]

/-- C7: the lexical score computed for every scored (window, candidate) pair
equals 0.6 × the distinct-token-overlap F1 plus 0.4 × the bigram Dice
coefficient, clamped to [0, 1], exactly as the specification states. -/
theorem C7_lexical_score (ctx : OfflineCtx) (embeddingEnabled : Bool)
    (verseTokens verseBigrams : List String) (verseEmbedding : Option (List ℚ))
    (w : TextWindow) :
    (windowScore ctx embeddingEnabled verseTokens verseBigrams verseEmbedding w).lexicalScore =
      specLexicalScore w.tokens w.bigrams verseTokens verseBigrams :=
  lexicalScoreOf_eq_spec w.tokens w.bigrams verseTokens verseBigrams

/-- Membership through confidence-ordered insertion. -/
theorem mem_insertByConfDesc (m a : ParaphrasedVerse) (l : List ParaphrasedVerse) :
    a ∈ insertByConfDesc m l ↔ a = m ∨ a ∈ l := by
  induction l with
  | nil => simp [insertByConfDesc]
  | cons x xs ih =>
    by_cases h : m.confidence < x.confidence
    · simp [insertByConfDesc, h, ih]
      tauto
    · simp [insertByConfDesc, h]

/-- Membership is preserved by the confidence sort. -/
theorem mem_sortByConfDesc (a : ParaphrasedVerse) (l : List ParaphrasedVerse) :
    a ∈ sortByConfDesc l ↔ a ∈ l := by
  induction l with
  | nil => simp [sortByConfDesc]
  | cons x xs ih =>
    rw [show sortByConfDesc (x :: xs) = insertByConfDesc x (sortByConfDesc xs) from rfl]
    rw [mem_insertByConfDesc, ih]
    simp

/-- When every window fails the gate the best-window fold keeps its
initial value. -/
theorem bestWindow_allFail (ctx : OfflineCtx) (embeddingEnabled : Bool)
    (verseTokens verseBigrams : List String) (verseEmbedding : Option (List ℚ))
    (windows : List TextWindow)
    (h : ∀ w ∈ windows,
      passesGate embeddingEnabled
        (windowScore ctx embeddingEnabled verseTokens verseBigrams verseEmbedding w) = false) :
    bestWindow ctx embeddingEnabled verseTokens verseBigrams verseEmbedding windows =
      ((0 : ℚ), "", (0 : ℚ)) := by
  unfold bestWindow
  induction windows with
  | nil => rfl
  | cons w ws ih =>
    rw [List.foldl_cons]
    have hw := h w (by simp)
    simp only [hw, Bool.false_eq_true, if_false]
    exact ih (fun w2 hw2 => h w2 (by simp [hw2]))

/-- Failing all three numeric conditions fails the gate. -/
theorem passesGate_false_of_conditions (embeddingEnabled : Bool) (s : WindowScore)
    (h1 : s.overlap = 0) (h2 : s.bigramScore < 0.15) (h3 : s.semanticScore < 0.62) :
    passesGate embeddingEnabled s = false := by
  unfold passesGate
  rw [h1]
  simp only [Bool.or_eq_false_iff, Bool.and_eq_false_iff]
  refine ⟨⟨by decide, ?_⟩, Or.inr ?_⟩
  · simp [not_le.mpr h2]
  · simp [not_le.mpr h3]

/-- C3 (amended): a candidate verse for which every scoring window has zero
token overlap, bigram Dice below 0.15 and (when semantic scoring is active)
semantic score below 0.62 never appears in the returned `paraphrasedVerses`,
PROVIDED the effective `minConfidence` is positive (as is its default 0.6).
(The original claim without that proviso fails: with `minConfidence = 0`
such a candidate is returned with confidence 0, see the counterexample.) -/
theorem C3_gate_necessity_amended (ctx : OfflineCtx) (text : String)
    (options : OfflineOptions) (r : String)
    (hpos : 0 < options.minConfidence.getD 0.6)
    (hfail : ∀ c ∈ analyzeCandidates ctx text options, c.reference = r →
      ∀ w ∈ analyzeWindows ctx text options,
        (candidateWindowScore ctx (analyzeEmbeddingEnabled ctx options) c w).overlap = 0 ∧
        (candidateWindowScore ctx (analyzeEmbeddingEnabled ctx options) c w).bigramScore < 0.15 ∧
        (candidateWindowScore ctx (analyzeEmbeddingEnabled ctx options) c w).semanticScore < 0.62) :
    r ∉ (analyzeTranscriptChunkOffline ctx text options).paraphrasedVerses.map
      (fun m => m.reference) := by
  intro hr
  simp only [analyzeTranscriptChunkOffline] at hr
  by_cases h1 : (⟨trimCh text.data⟩ : String) = ""
  · rw [if_pos h1] at hr
    simp at hr
  · rw [if_neg h1] at hr
    by_cases h2 : (splitWsCh (⟨trimCh text.data⟩ : String).data).length <
        options.minWords.getD DEFAULT_MIN_WORDS
    · rw [if_pos h2] at hr
      simp at hr
    · rw [if_neg h2] at hr
      by_cases h3 : (buildTextWindows ⟨trimCh text.data⟩).length = 0
      · rw [if_pos h3] at hr
        simp at hr
      · rw [if_neg h3] at hr
        obtain ⟨m, hm, hmref⟩ := List.mem_map.mp hr
        have hm1 := List.mem_of_mem_take hm
        rw [mem_sortByConfDesc] at hm1
        obtain ⟨hm2, hmconf⟩ := List.mem_filter.mp hm1
        obtain ⟨c, hc, hsc⟩ := List.mem_filterMap.mp hm2
        unfold scoreCandidate at hsc
        by_cases htd : (getTokenDataForVerse ctx c.reference c.text).1.length = 0
        · rw [if_pos htd] at hsc
          cases hsc
        · rw [if_neg htd] at hsc
          dsimp only at hsc
          have hcref : c.reference = r := by
            have := Option.some.inj hsc
            rw [← this] at hmref
            exact hmref
          have hwfail := hfail c hc hcref
          have hbest : bestWindow ctx (analyzeEmbeddingEnabled ctx options)
              (getTokenDataForVerse ctx c.reference c.text).1
              (getTokenDataForVerse ctx c.reference c.text).2
              (if analyzeEmbeddingEnabled ctx options then
                getVerseEmbedding ctx c.reference c.text else none)
              (analyzeWindows ctx text options) = ((0 : ℚ), "", (0 : ℚ)) := by
            apply bestWindow_allFail
            intro w hw
            obtain ⟨ho, hb, hs⟩ := hwfail w hw
            exact passesGate_false_of_conditions _ _ ho hb hs
          rw [show windowsUsed ctx (⟨trimCh text.data⟩ : String)
              (options.useEmbeddings.getD true && ctx.embedderAvailable) =
              analyzeWindows ctx text options from rfl] at hsc
          rw [show (if options.useEmbeddings.getD true && ctx.embedderAvailable then
                getVerseEmbedding ctx c.reference c.text else none) =
              (if analyzeEmbeddingEnabled ctx options then
                getVerseEmbedding ctx c.reference c.text else none) from rfl] at hsc
          rw [show (options.useEmbeddings.getD true && ctx.embedderAvailable) =
              analyzeEmbeddingEnabled ctx options from rfl] at hsc
          rw [hbest] at hsc
          have hmc : m.confidence = normalizeScore (0 *
              (if (getTokenDataForVerse ctx c.reference c.text).1.length < 6 then
                (0.85 : ℚ) else 1)) := by
            have := Option.some.inj hsc
            rw [← this]
          rw [zero_mul] at hmc
          have hmc0 : m.confidence = 0 := by
            rw [hmc]
            simp [normalizeScore]
          have := of_decide_eq_true hmconf
          rw [hmc0] at this
          exact absurd this (not_le.mpr hpos)

/-- C3 counterexample: with `minConfidence: 0` (a legal option value) the
candidate `"Obadiah 1:1"` is returned with confidence 0 although the single
scoring window has zero token overlap and zero bigram Dice (semantic scoring
is off) — the claim quantified over every option setting is false. -/
theorem C3_counterexample :
    (analyzeTranscriptChunkOffline ctxObadiah "faithful servants gather wheat"
      { minConfidence := some 0, useEmbeddings := some false }).paraphrasedVerses =
      [obadiahMatch] ∧
    ((analyzeWindows ctxObadiah "faithful servants gather wheat"
        { minConfidence := some 0, useEmbeddings := some false }).all (fun w =>
      decide ((candidateWindowScore ctxObadiah false obadiahResult w).overlap = 0) &&
      decide ((candidateWindowScore ctxObadiah false obadiahResult w).bigramScore < 0.15) &&
      decide ((candidateWindowScore ctxObadiah false obadiahResult w).semanticScore < 0.62)))
      = true := by
  constructor
  · decide
  · decide

/-- C3 witness: the amended theorem applied to the same disjoint candidate
under the default threshold 0.6 — the candidate does not appear. -/
theorem C3_witness :
    "Obadiah 1:1" ∉ (analyzeTranscriptChunkOffline ctxObadiah
      "faithful servants gather wheat" {}).paraphrasedVerses.map (fun m => m.reference) :=
  C3_gate_necessity_amended ctxObadiah "faithful servants gather wheat" {} "Obadiah 1:1"
    (by decide) (by decide)

/-- Confidence-ordered insertion preserves the sorted-descending invariant. -/
theorem pairwise_insertByConfDesc (m : ParaphrasedVerse) (l : List ParaphrasedVerse)
    (hl : l.Pairwise (fun a b => b.confidence ≤ a.confidence)) :
    (insertByConfDesc m l).Pairwise (fun a b => b.confidence ≤ a.confidence) := by
  induction l with
  | nil => simp [insertByConfDesc]
  | cons x xs ih =>
    rw [List.pairwise_cons] at hl
    by_cases h : m.confidence < x.confidence
    · rw [insertByConfDesc, if_pos h, List.pairwise_cons]
      refine ⟨?_, ih hl.2⟩
      intro b hb
      rcases (mem_insertByConfDesc m b xs).mp hb with rfl | hb2
      · exact le_of_lt h
      · exact hl.1 b hb2
    · rw [insertByConfDesc, if_neg h, List.pairwise_cons]
      refine ⟨?_, List.pairwise_cons.mpr hl⟩
      intro b hb
      rcases List.mem_cons.mp hb with rfl | hb2
      · exact not_lt.mp h
      · exact le_trans (hl.1 b hb2) (not_lt.mp h)

/-- The confidence sort produces a list sorted by non-increasing
confidence. -/
theorem pairwise_sortByConfDesc (l : List ParaphrasedVerse) :
    (sortByConfDesc l).Pairwise (fun a b => b.confidence ≤ a.confidence) := by
  induction l with
  | nil => simp [sortByConfDesc]
  | cons x xs ih => exact pairwise_insertByConfDesc x _ ih

/-- On a sorted list, filtering by a confidence threshold commutes with
stable insertion. -/
theorem filter_insertByConfDesc (t : ℚ) (m : ParaphrasedVerse) (M : List ParaphrasedVerse)
    (hM : M.Pairwise (fun a b => b.confidence ≤ a.confidence)) :
    (insertByConfDesc m M).filter (fun x => decide (t ≤ x.confidence)) =
      if t ≤ m.confidence then
        insertByConfDesc m (M.filter (fun x => decide (t ≤ x.confidence)))
      else M.filter (fun x => decide (t ≤ x.confidence)) := by
  induction M with
  | nil =>
    by_cases hm : t ≤ m.confidence <;> simp [insertByConfDesc, hm]
  | cons x xs ih =>
    rw [List.pairwise_cons] at hM
    by_cases hlt : m.confidence < x.confidence
    · rw [show insertByConfDesc m (x :: xs) = x :: insertByConfDesc m xs by
        rw [insertByConfDesc, if_pos hlt]]
      by_cases hpx : t ≤ x.confidence
      · rw [List.filter_cons_of_pos (by simpa using hpx), ih hM.2]
        by_cases hpm : t ≤ m.confidence
        · rw [if_pos hpm, if_pos hpm, List.filter_cons_of_pos (by simpa using hpx)]
          rw [show insertByConfDesc m
              (x :: xs.filter (fun x => decide (t ≤ x.confidence))) =
              x :: insertByConfDesc m (xs.filter (fun x => decide (t ≤ x.confidence))) by
            rw [insertByConfDesc, if_pos hlt]]
        · rw [if_neg hpm, if_neg hpm, List.filter_cons_of_pos (by simpa using hpx)]
      · have hpm : ¬ t ≤ m.confidence := fun hc => hpx (le_trans hc (le_of_lt hlt))
        rw [List.filter_cons_of_neg (by simpa using hpx), ih hM.2,
          if_neg hpm, if_neg hpm, List.filter_cons_of_neg (by simpa using hpx)]
    · rw [show insertByConfDesc m (x :: xs) = m :: x :: xs by
        rw [insertByConfDesc, if_neg hlt]]
      by_cases hpm : t ≤ m.confidence
      · rw [if_pos hpm, List.filter_cons_of_pos (by simpa using hpm)]
        by_cases hpx : t ≤ x.confidence
        · rw [List.filter_cons_of_pos (by simpa using hpx)]
          rw [show insertByConfDesc m
              (x :: xs.filter (fun x => decide (t ≤ x.confidence))) =
              m :: x :: xs.filter (fun x => decide (t ≤ x.confidence)) by
            rw [insertByConfDesc, if_neg hlt]]
        · have hnil : xs.filter (fun y => decide (t ≤ y.confidence)) = [] := by
            rw [List.filter_eq_nil_iff]
            intro y hy
            have : y.confidence ≤ x.confidence := hM.1 y hy
            simp only [decide_eq_true_eq]
            intro hc
            exact hpx (le_trans hc this)
          rw [List.filter_cons_of_neg (by simpa using hpx), hnil]
          rfl
      · rw [if_neg hpm, List.filter_cons_of_neg (by simpa using hpm)]

/-- Filtering by a confidence threshold commutes with the confidence sort. -/
theorem filter_sortByConfDesc (t : ℚ) (l : List ParaphrasedVerse) :
    (sortByConfDesc l).filter (fun x => decide (t ≤ x.confidence)) =
      sortByConfDesc (l.filter (fun x => decide (t ≤ x.confidence))) := by
  induction l with
  | nil => simp [sortByConfDesc]
  | cons x xs ih =>
    rw [show sortByConfDesc (x :: xs) = insertByConfDesc x (sortByConfDesc xs) from rfl]
    rw [filter_insertByConfDesc t x _ (pairwise_sortByConfDesc xs)]
    by_cases hx : t ≤ x.confidence
    · rw [if_pos hx, ih, List.filter_cons_of_pos (by simpa using hx)]
      rfl
    · rw [if_neg hx, ih, List.filter_cons_of_neg (by simpa using hx)]

/-- Raising the threshold refines the filter. -/
theorem filter_threshold_mono (t1 t2 : ℚ) (hle : t1 ≤ t2) (l : List ParaphrasedVerse) :
    l.filter (fun x => decide (t2 ≤ x.confidence)) =
      (l.filter (fun x => decide (t1 ≤ x.confidence))).filter
        (fun x => decide (t2 ≤ x.confidence)) := by
  induction l with
  | nil => simp
  | cons x xs ih =>
    by_cases h2 : t2 ≤ x.confidence
    · have h1 : t1 ≤ x.confidence := le_trans hle h2
      rw [List.filter_cons_of_pos (by simpa using h2),
        List.filter_cons_of_pos (by simpa using h1),
        List.filter_cons_of_pos (by simpa using h2), ih]
    · by_cases h1 : t1 ≤ x.confidence
      · rw [List.filter_cons_of_neg (by simpa using h2),
          List.filter_cons_of_pos (by simpa using h1),
          List.filter_cons_of_neg (by simpa using h2), ih]
      · rw [List.filter_cons_of_neg (by simpa using h2),
          List.filter_cons_of_neg (by simpa using h1), ih]

/-- On a sorted-descending list a threshold filter keeps a prefix. -/
theorem sorted_filter_eq_take (t : ℚ) (S : List ParaphrasedVerse)
    (hS : S.Pairwise (fun a b => b.confidence ≤ a.confidence)) :
    ∃ n, S.filter (fun x => decide (t ≤ x.confidence)) = S.take n := by
  induction S with
  | nil => exact ⟨0, rfl⟩
  | cons x xs ih =>
    rw [List.pairwise_cons] at hS
    by_cases hx : t ≤ x.confidence
    · obtain ⟨n, hn⟩ := ih hS.2
      exact ⟨n + 1, by rw [List.filter_cons_of_pos (by simpa using hx), hn]; rfl⟩
    · refine ⟨0, ?_⟩
      rw [List.filter_cons_of_neg (by simpa using hx), List.take_zero,
        List.filter_eq_nil_iff]
      intro y hy
      have : y.confidence ≤ x.confidence := hS.1 y hy
      simp only [decide_eq_true_eq]
      intro hc
      exact hx (le_trans hc this)

/-- Membership in a shorter prefix implies membership in a longer one. -/
theorem mem_take_of_le (a : ParaphrasedVerse) (S : List ParaphrasedVerse) (i j : Nat)
    (hij : i ≤ j) (ha : a ∈ S.take i) : a ∈ S.take j := by
  have : S.take i = (S.take j).take i := by
    rw [List.take_take, Nat.min_eq_left hij]
  rw [this] at ha
  exact List.mem_of_mem_take ha

/-- C4: with the transcript, corpus, caches and all other options fixed,
raising `minConfidence` never grows the result set — every match returned at
the higher threshold `t2 ≥ t1` is also returned at `t1`. -/
theorem C4_minConfidence_monotone (ctx : OfflineCtx) (text : String)
    (options : OfflineOptions) (t1 t2 : ℚ) (hle : t1 ≤ t2) (m : ParaphrasedVerse)
    (hm : m ∈ (analyzeTranscriptChunkOffline ctx text
      { options with minConfidence := some t2 }).paraphrasedVerses) :
    m ∈ (analyzeTranscriptChunkOffline ctx text
      { options with minConfidence := some t1 }).paraphrasedVerses := by
  simp only [analyzeTranscriptChunkOffline] at hm ⊢
  by_cases h1 : (⟨trimCh text.data⟩ : String) = ""
  · rw [if_pos h1] at hm
    simp at hm
  · rw [if_neg h1] at hm ⊢
    by_cases h2 : (splitWsCh (⟨trimCh text.data⟩ : String).data).length <
        ({ options with minConfidence := some t2 } : OfflineOptions).minWords.getD
          DEFAULT_MIN_WORDS
    · rw [if_pos h2] at hm
      simp at hm
    · rw [if_neg h2] at hm
      rw [if_neg (by exact h2)]
      by_cases h3 : (buildTextWindows ⟨trimCh text.data⟩).length = 0
      · rw [if_pos h3] at hm
        simp at hm
      · rw [if_neg h3] at hm
        rw [if_neg h3]
        simp only [Option.getD_some] at hm ⊢
        have hm1 := hm
        rw [filter_threshold_mono t1 t2 hle] at hm1
        rw [← filter_sortByConfDesc] at hm1
        obtain ⟨n, hn⟩ := sorted_filter_eq_take t2 _ (pairwise_sortByConfDesc _)
        rw [hn, List.take_take] at hm1
        exact mem_take_of_le m _ _ _ (Nat.min_le_left _ _) hm1

/-- C4 witness: a perfect-overlap match returned at threshold 3/5 is also
returned at threshold 1/2. -/
theorem C4_witness :
    ((1 : ℚ)/2 ≤ 3/5) ∧
    johnMatch ∈ (analyzeTranscriptChunkOffline ctxJohn
      "god greatly loved whole world today"
      { minConfidence := some (1/2) }).paraphrasedVerses :=
  ⟨by decide,
   C4_minConfidence_monotone ctxJohn "god greatly loved whole world today" {}
     (1/2) (3/5) (by decide) johnMatch (by decide)⟩

end Theorems
